import Mathlib

/-!
Formal model of a single-worker active-object executor, embedded from
libs/renderengine/threaded/RenderEngineThreaded.cpp.

The C++ dispatcher owns a render engine confined to a dedicated worker
thread.  Producer threads enqueue closures onto a mutex-guarded FIFO queue
(mFunctionCalls under mThreadMutex); the worker constructs the engine via a
factory, signals an initialization barrier (mIsInitialized under
mInitializedMutex), then repeatedly pops and runs tasks while mRunning
holds.  The destructor clears mRunning under the queue lock, signals, and
joins.  We embed the dispatcher as an interleaving transition system: one
worker thread, one destructor thread and arbitrarily many producer
threads, each with an explicit program counter, stepping over a shared
state that mirrors the member variables of the C++ class.
-/

namespace RETh


/-- Result values delivered through a task promise / future pair. -/

inductive Val where
  | unit
  | bool (b : Bool)
  | int (i : Int)
  | nat (n : Nat)
  | str (s : String)
deriving DecidableEq

/-- State of the owned resource (renderengine::RenderEngine).  Its internal
behavior is out of scope for the dispatcher; we model the queries and
commands the dispatcher forwards, with result data carried in the state. -/

structure RenderEngine where
  maxTextureSize : Nat
  maxViewportDims : Nat
  supportsProtCont : Bool
  supportsBgBlur : Bool
  protectedCtx : Bool
  primed : Bool
  textures : Nat
  viewport : Nat × Nat
  displaySize : Nat
  mappedBuffers : Nat
  drawStatus : Nat → Int
  useProtResult : Bool → Bool
  cleanupResult : Bool
  contextPriority : Int
  dumpStr : String

/-- The public operations of RenderEngineThreaded, one per method of the
source file (arguments reduced to the data the model tracks). -/

inductive PubOp where
  | primeCache
  | dump (prev : String)
  | genTextures (count : Nat)
  | deleteTextures (count : Nat)
  | mapExternalTextureBuffer (isRenderable : Bool)
  | unmapExternalTextureBuffer
  | getMaxTextureSize
  | getMaxViewportDims
  | isProtected
  | supportsProtectedContent
  | useProtectedContext (b : Bool)
  | cleanupPostRender
  | setViewportAndProjection (viewPort sourceCrop : Nat)
  | drawLayers (display : Nat)
  | cleanFramebufferCache
  | getContextPriority
  | supportsBackgroundBlur
  | onPrimaryDisplaySizeChanged (size : Nat)
deriving DecidableEq

/-- Calling convention of each public method, read off the source body:
fire-and-forget enqueue, blocking enqueue (promise/future), direct read
after waitUntilInitialized, or direct read that also takes mThreadMutex. -/

inductive Conv where
  | qAsync
  | qSync
  | dRead
  | dReadLocked
deriving DecidableEq

/-- Per-method convention, method by method from RenderEngineThreaded.cpp:
push-and-return methods are qAsync, push-then-future-wait methods are
qSync, waitUntilInitialized-then-read methods are dRead, and isProtected
(which additionally takes mThreadMutex for the read) is dReadLocked. -/

def classify : PubOp → Conv
  | .primeCache => .qAsync
  | .dump _ => .qSync
  | .genTextures _ => .qSync
  | .deleteTextures _ => .qSync
  | .mapExternalTextureBuffer _ => .qAsync
  | .unmapExternalTextureBuffer => .qAsync
  | .getMaxTextureSize => .dRead
  | .getMaxViewportDims => .dRead
  | .isProtected => .dReadLocked
  | .supportsProtectedContent => .dRead
  | .useProtectedContext _ => .qSync
  | .cleanupPostRender => .qSync
  | .setViewportAndProjection _ _ => .qSync
  | .drawLayers _ => .qSync
  | .cleanFramebufferCache => .qAsync
  | .getContextPriority => .qSync
  | .supportsBackgroundBlur => .dRead
  | .onPrimaryDisplaySizeChanged _ => .qAsync

/-- Value produced by the direct-read accessors (the queries the facade
forwards to the engine on the caller thread). -/

def readVal : PubOp → RenderEngine → Val
  | .getMaxTextureSize, e => .nat e.maxTextureSize
  | .getMaxViewportDims, e => .nat e.maxViewportDims
  | .isProtected, e => .bool e.protectedCtx
  | .supportsProtectedContent, e => .bool e.supportsProtCont
  | .supportsBackgroundBlur, e => .bool e.supportsBgBlur
  | _, _ => .unit

/-- Effect and result of running a queued operation against the engine,
mirroring the body of each lambda pushed onto mFunctionCalls: the engine
performs the operation and the lambda captures the status it returns. -/

def runOp : PubOp → RenderEngine → RenderEngine × Val
  | .primeCache, e => ({ e with primed := true }, .unit)
  | .dump prev, e => (e, .str (prev ++ e.dumpStr))
  | .genTextures n, e => ({ e with textures := e.textures + n }, .unit)
  | .deleteTextures n, e => ({ e with textures := e.textures - n }, .unit)
  | .mapExternalTextureBuffer _, e =>
      ({ e with mappedBuffers := e.mappedBuffers + 1 }, .unit)
  | .unmapExternalTextureBuffer, e =>
      ({ e with mappedBuffers := e.mappedBuffers - 1 }, .unit)
  | .useProtectedContext b, e =>
      ({ e with protectedCtx := b }, .bool (e.useProtResult b))
  | .cleanupPostRender, e => (e, .bool e.cleanupResult)
  | .setViewportAndProjection v c, e => ({ e with viewport := (v, c) }, .unit)
  | .drawLayers d, e => (e, .int (e.drawStatus d))
  | .cleanFramebufferCache, e => (e, .unit)
  | .getContextPriority, e => (e, .int e.contextPriority)
  | .onPrimaryDisplaySizeChanged n, e => ({ e with displaySize := n }, .unit)
  | op, e => (e, readVal op e)

/-- A queued task: the operation bound into the pushed closure, plus the
index of its promise slot when the call is blocking (none for
fire-and-forget pushes, which create no promise). -/

structure Task where
  op : PubOp
  pid : Option Nat
deriving DecidableEq

/-- One completed task execution: the task, the engine state the lambda
saw, the engine state it left, and the value it delivered. -/

structure ExecEntry where
  task : Task
  engBefore : RenderEngine
  engAfter : RenderEngine
  val : Val

/-- Program counter of the worker thread (threadMain). -/

inductive WPc where
  | create
  | ranFactory
  | lockedMain
  | lockedInit
  | loopCheck
  | loopBody
  | running (t : Task)
  | condWaitEntry
  | waiting
  | resetRE
  | done
deriving DecidableEq

/-- Program counter of the destructor thread. -/

inductive DPc where
  | idle
  | locked
  | cleared
  | notified
  | released
  | joined
deriving DecidableEq

/-- Program counter of a producer (caller) thread running one public
operation. -/

inductive PPc where
  | start
  | locked
  | pushedHolding (t : Task)
  | waitingFuture (t : Task)
  | doneAsync
  | doneSync (t : Task) (v : Val)
  | initObserved
  | readLocked
  | doneRead (v : Val)
deriving DecidableEq

/-- Thread identities: the worker, the thread running the destructor, and
numbered producer threads. -/

inductive Tid where
  | worker
  | dtor
  | prod (i : Nat)
deriving DecidableEq

/-- Local state of one producer thread: the public operation it calls and
its program counter. -/

structure ProdState where
  prog : PubOp
  pc : PPc
deriving DecidableEq

/-- Global state of the dispatcher, mirroring the member variables of
RenderEngineThreaded plus the thread program counters and two history
logs (tasks pushed, in push order, and executions, in execution order). -/

structure SysState where
  factoryResult : RenderEngine
  engine : Option RenderEngine
  queue : List Task
  running : Bool
  isInitialized : Bool
  threadMutex : Option Tid
  initMutex : Option Tid
  promises : List (Option Val)
  wpc : WPc
  dpc : DPc
  prods : List ProdState
  pushedLog : List Task
  execLog : List ExecEntry

/-- The task a push step constructs: blocking calls allocate a fresh
promise slot (the next index of the promise store); fire-and-forget calls
allocate none. -/

def pushTask (s : SysState) (op : PubOp) : Task :=
  ⟨op, if classify op = .qSync then some s.promises.length else none⟩

/-- Interleaving small-step semantics.  Each constructor is one atomic
step of one thread, translated from RenderEngineThreaded.cpp: the worker
runs threadMain, the destructor runs the destructor body, and each
producer runs the body of its public operation. -/

inductive Step : Tid → SysState → SysState → Prop where
  | wFactory (s) (h : s.wpc = .create) :
      Step .worker s { s with engine := some s.factoryResult, wpc := .ranFactory }
  | wLockMain (s) (h : s.wpc = .ranFactory) (hm : s.threadMutex = none) :
      Step .worker s { s with threadMutex := some .worker, wpc := .lockedMain }
  | wLockInit (s) (h : s.wpc = .lockedMain) (hm : s.initMutex = none) :
      Step .worker s { s with initMutex := some .worker, wpc := .lockedInit }
  | wSetFlag (s) (h : s.wpc = .lockedInit) :
      Step .worker s { s with isInitialized := true, initMutex := none, wpc := .loopCheck }
  | wLoopEnter (s) (h : s.wpc = .loopCheck) (hr : s.running = true) :
      Step .worker s { s with wpc := .loopBody }
  | wLoopExit (s) (h : s.wpc = .loopCheck) (hr : s.running = false) :
      Step .worker s { s with wpc := .resetRE }
  | wPop (s t rest) (h : s.wpc = .loopBody) (hq : s.queue = t :: rest) :
      Step .worker s { s with queue := rest, wpc := .running t }
  | wNoTask (s) (h : s.wpc = .loopBody) (hq : s.queue = []) :
      Step .worker s { s with wpc := .condWaitEntry }
  | wExecFinish (s t e) (h : s.wpc = .running t) (he : s.engine = some e) :
      Step .worker s
        { s with
          engine := some (runOp t.op e).1
          promises := match t.pid with
            | some q => s.promises.set q (some (runOp t.op e).2)
            | none => s.promises
          execLog := s.execLog ++ [⟨t, e, (runOp t.op e).1, (runOp t.op e).2⟩]
          wpc := .condWaitEntry }
  | wWaitFast (s) (h : s.wpc = .condWaitEntry)
      (hp : s.running = false ∨ s.queue ≠ []) :
      Step .worker s { s with wpc := .loopCheck }
  | wWaitBlock (s) (h : s.wpc = .condWaitEntry) (hr : s.running = true)
      (hq : s.queue = []) :
      Step .worker s { s with threadMutex := none, wpc := .waiting }
  | wWake (s) (h : s.wpc = .waiting) (hm : s.threadMutex = none)
      (hp : s.running = false ∨ s.queue ≠ []) :
      Step .worker s { s with threadMutex := some .worker, wpc := .loopCheck }
  | wReset (s) (h : s.wpc = .resetRE) :
      Step .worker s { s with engine := none, threadMutex := none, wpc := .done }
  | dLock (s) (h : s.dpc = .idle) (hm : s.threadMutex = none) :
      Step .dtor s { s with threadMutex := some .dtor, dpc := .locked }
  | dClear (s) (h : s.dpc = .locked) :
      Step .dtor s { s with running := false, dpc := .cleared }
  | dNotify (s) (h : s.dpc = .cleared) :
      Step .dtor s { s with dpc := .notified }
  | dRelease (s) (h : s.dpc = .notified) :
      Step .dtor s { s with threadMutex := none, dpc := .released }
  | dJoin (s) (h : s.dpc = .released) (hw : s.wpc = .done) :
      Step .dtor s { s with dpc := .joined }
  | pLockQ (s i p) (hp : s.prods[i]? = some p) (hpc : p.pc = .start)
      (hc : classify p.prog = .qAsync ∨ classify p.prog = .qSync)
      (hm : s.threadMutex = none) :
      Step (.prod i) s
        { s with
          threadMutex := some (.prod i)
          prods := s.prods.set i { p with pc := .locked } }
  | pPush (s i p) (hp : s.prods[i]? = some p) (hpc : p.pc = .locked) :
      Step (.prod i) s
        { s with
          queue := s.queue ++ [pushTask s p.prog]
          pushedLog := s.pushedLog ++ [pushTask s p.prog]
          promises := if classify p.prog = .qSync then s.promises ++ [none]
            else s.promises
          prods := s.prods.set i { p with pc := .pushedHolding (pushTask s p.prog) } }
  | pReleaseQ (s i p t) (hp : s.prods[i]? = some p)
      (hpc : p.pc = .pushedHolding t) :
      Step (.prod i) s
        { s with
          threadMutex := none
          prods := s.prods.set i { p with pc := if classify p.prog = .qSync then .waitingFuture t else .doneAsync } }
  | pGetFuture (s i p t q v) (hp : s.prods[i]? = some p)
      (hpc : p.pc = .waitingFuture t) (hq : t.pid = some q)
      (hv : s.promises[q]? = some (some v)) :
      Step (.prod i) s { s with prods := s.prods.set i { p with pc := .doneSync t v } }
  | pWaitInit (s i p) (hp : s.prods[i]? = some p) (hpc : p.pc = .start)
      (hc : classify p.prog = .dRead ∨ classify p.prog = .dReadLocked)
      (hm : s.initMutex = none) (hi : s.isInitialized = true) :
      Step (.prod i) s { s with prods := s.prods.set i { p with pc := .initObserved } }
  | pRead (s i p e) (hp : s.prods[i]? = some p) (hpc : p.pc = .initObserved)
      (hc : classify p.prog = .dRead) (he : s.engine = some e) :
      Step (.prod i) s { s with
        prods := s.prods.set i { p with pc := .doneRead (readVal p.prog e) } }
  | pLockRead (s i p) (hp : s.prods[i]? = some p) (hpc : p.pc = .initObserved)
      (hc : classify p.prog = .dReadLocked) (hm : s.threadMutex = none) :
      Step (.prod i) s
        { s with
          threadMutex := some (.prod i)
          prods := s.prods.set i { p with pc := .readLocked } }
  | pReadProt (s i p e) (hp : s.prods[i]? = some p) (hpc : p.pc = .readLocked)
      (he : s.engine = some e) :
      Step (.prod i) s
        { s with
          threadMutex := none
          prods := s.prods.set i { p with pc := .doneRead (readVal p.prog e) } }

/-- Reachability from a start state by any interleaving of steps. -/

inductive Reach (s0 : SysState) : SysState → Prop where
  | refl : Reach s0 s0
  | tail {s s' : SysState} (l : Tid) : Reach s0 s → Step l s s' → Reach s0 s'

/-- The state right after the RenderEngineThreaded constructor returns:
the worker thread is launched but has not yet run the factory, the queue
is empty, the barrier flag is clear, and each producer thread is about to
call its public operation. -/

def initState (eng0 : RenderEngine) (ops : List PubOp) : SysState where
  factoryResult := eng0
  engine := none
  queue := []
  running := true
  isInitialized := false
  threadMutex := none
  initMutex := none
  promises := []
  wpc := .create
  dpc := .idle
  prods := ops.map fun o => ⟨o, .start⟩
  pushedLog := []
  execLog := []

/-- The task the worker is currently executing, if any. -/

def wInflight : WPc → List Task
  | .running t => [t]
  | _ => []

/-- Worker program points before the initialization flag is set. -/

def wEarly : WPc → Bool
  | .create | .ranFactory | .lockedMain | .lockedInit => true
  | _ => false

/-- Worker program points after the loop has exited. -/

def wLate : WPc → Bool
  | .resetRE | .done => true
  | _ => false

/-- Worker program points at which threadMain holds mThreadMutex (the
unique_lock is taken before the loop and only released inside the
condition wait and at thread exit). -/

def wHolds : WPc → Bool
  | .lockedMain | .lockedInit | .loopCheck | .loopBody
  | .running _ | .condWaitEntry | .resetRE => true
  | _ => false

/-- Destructor program points at which the destructor holds mThreadMutex. -/

def dHolds : DPc → Bool
  | .locked | .cleared | .notified => true
  | _ => false

/-- Producer program points at which the producer holds mThreadMutex. -/

def pHolds : PPc → Bool
  | .locked | .pushedHolding _ | .readLocked => true
  | _ => false

/-- Engine existence at each worker program point: none before the
factory runs and after the reset, present in between. -/

def engineSpec : WPc → Option RenderEngine → Prop
  | .create, e => e = none
  | .done, e => e = none
  | _, e => e.isSome = true

/-- Holder of mInitializedMutex at each worker program point: the worker
holds it exactly while setting the flag (producers check the predicate
atomically). -/

def initMutexSpec : WPc → Option Tid
  | .lockedInit => some .worker
  | _ => none

/-- Destructor program order (the successor of each program point). -/

def dNext : DPc → DPc
  | .idle => .locked
  | .locked => .cleared
  | .cleared => .notified
  | .notified => .released
  | .released => .joined
  | .joined => .joined

/-- Tasks not yet finished: the one being executed, then the queue. -/

def pendingTasks (s : SysState) : List Task :=
  wInflight s.wpc ++ s.queue

/-- Promise slots of the unfinished tasks. -/

def pendingPids (s : SysState) : List Nat :=
  (pendingTasks s).filterMap Task.pid

/-- Schedule entries naming which thread takes which step, used to build
concrete executions of the system. -/

inductive Move where
  | wFactory | wLockMain | wLockInit | wSetFlag | wLoopEnter | wLoopExit
  | wPop | wNoTask | wExecFinish | wWaitFast | wWaitBlock | wWake | wReset
  | dLock | dClear | dNotify | dRelease | dJoin
  | pLockQ (i : Nat) | pPush (i : Nat) | pReleaseQ (i : Nat)
  | pGetFuture (i : Nat) | pWaitInit (i : Nat) | pRead (i : Nat)
  | pLockRead (i : Nat) | pReadProt (i : Nat)

/-- Executable interpreter for one scheduled step; returns none when the
step is not enabled.  Each branch mirrors the corresponding Step
constructor exactly. -/

def applyMove (s : SysState) : Move → Option SysState
  | .wFactory =>
      if s.wpc = .create then
        some { s with engine := some s.factoryResult, wpc := .ranFactory }
      else none
  | .wLockMain =>
      if s.wpc = .ranFactory ∧ s.threadMutex = none then
        some { s with threadMutex := some .worker, wpc := .lockedMain }
      else none
  | .wLockInit =>
      if s.wpc = .lockedMain ∧ s.initMutex = none then
        some { s with initMutex := some .worker, wpc := .lockedInit }
      else none
  | .wSetFlag =>
      if s.wpc = .lockedInit then
        some { s with isInitialized := true, initMutex := none, wpc := .loopCheck }
      else none
  | .wLoopEnter =>
      if s.wpc = .loopCheck ∧ s.running = true then
        some { s with wpc := .loopBody }
      else none
  | .wLoopExit =>
      if s.wpc = .loopCheck ∧ s.running = false then
        some { s with wpc := .resetRE }
      else none
  | .wPop =>
      match hq : s.queue with
      | t :: rest =>
          if s.wpc = .loopBody then
            some { s with queue := rest, wpc := .running t }
          else none
      | [] => none
  | .wNoTask =>
      if s.wpc = .loopBody ∧ s.queue = [] then
        some { s with wpc := .condWaitEntry }
      else none
  | .wExecFinish =>
      match s.wpc, s.engine with
      | .running t, some e =>
          some { s with
            engine := some (runOp t.op e).1
            promises := match t.pid with
              | some q => s.promises.set q (some (runOp t.op e).2)
              | none => s.promises
            execLog := s.execLog ++ [⟨t, e, (runOp t.op e).1, (runOp t.op e).2⟩]
            wpc := .condWaitEntry }
      | _, _ => none
  | .wWaitFast =>
      if s.wpc = .condWaitEntry ∧ (s.running = false ∨ s.queue ≠ []) then
        some { s with wpc := .loopCheck }
      else none
  | .wWaitBlock =>
      if s.wpc = .condWaitEntry ∧ s.running = true ∧ s.queue = [] then
        some { s with threadMutex := none, wpc := .waiting }
      else none
  | .wWake =>
      if s.wpc = .waiting ∧ s.threadMutex = none ∧
          (s.running = false ∨ s.queue ≠ []) then
        some { s with threadMutex := some .worker, wpc := .loopCheck }
      else none
  | .wReset =>
      if s.wpc = .resetRE then
        some { s with engine := none, threadMutex := none, wpc := .done }
      else none
  | .dLock =>
      if s.dpc = .idle ∧ s.threadMutex = none then
        some { s with threadMutex := some .dtor, dpc := .locked }
      else none
  | .dClear =>
      if s.dpc = .locked then
        some { s with running := false, dpc := .cleared }
      else none
  | .dNotify =>
      if s.dpc = .cleared then some { s with dpc := .notified } else none
  | .dRelease =>
      if s.dpc = .notified then
        some { s with threadMutex := none, dpc := .released }
      else none
  | .dJoin =>
      if s.dpc = .released ∧ s.wpc = .done then
        some { s with dpc := .joined }
      else none
  | .pLockQ i =>
      match hp : s.prods[i]? with
      | some p =>
          if p.pc = .start ∧
              (classify p.prog = .qAsync ∨ classify p.prog = .qSync) ∧
              s.threadMutex = none then
            some { s with
              threadMutex := some (.prod i)
              prods := s.prods.set i { p with pc := .locked } }
          else none
      | none => none
  | .pPush i =>
      match hp : s.prods[i]? with
      | some p =>
          if p.pc = .locked then
            some { s with
              queue := s.queue ++ [pushTask s p.prog]
              pushedLog := s.pushedLog ++ [pushTask s p.prog]
              promises := if classify p.prog = .qSync then s.promises ++ [none]
                else s.promises
              prods := s.prods.set i { p with pc := .pushedHolding (pushTask s p.prog) } }
          else none
      | none => none
  | .pReleaseQ i =>
      match hp : s.prods[i]? with
      | some p =>
          match hpc : p.pc with
          | .pushedHolding t =>
              some { s with
                threadMutex := none
                prods := s.prods.set i { p with pc := if classify p.prog = .qSync then .waitingFuture t else .doneAsync } }
          | _ => none
      | none => none
  | .pGetFuture i =>
      match hp : s.prods[i]? with
      | some p =>
          match hpc : p.pc with
          | .waitingFuture t =>
              match hq : t.pid with
              | some q =>
                  match hv : s.promises[q]? with
                  | some (some v) =>
                      some { s with prods := s.prods.set i { p with pc := .doneSync t v } }
                  | _ => none
              | none => none
          | _ => none
      | none => none
  | .pWaitInit i =>
      match hp : s.prods[i]? with
      | some p =>
          if p.pc = .start ∧
              (classify p.prog = .dRead ∨ classify p.prog = .dReadLocked) ∧
              s.initMutex = none ∧ s.isInitialized = true then
            some { s with prods := s.prods.set i { p with pc := .initObserved } }
          else none
      | none => none
  | .pRead i =>
      match hp : s.prods[i]?, s.engine with
      | some p, some e =>
          if p.pc = .initObserved ∧ classify p.prog = .dRead then
            some { s with
              prods := s.prods.set i { p with pc := .doneRead (readVal p.prog e) } }
          else none
      | _, _ => none
  | .pLockRead i =>
      match hp : s.prods[i]? with
      | some p =>
          if p.pc = .initObserved ∧ classify p.prog = .dReadLocked ∧
              s.threadMutex = none then
            some { s with
              threadMutex := some (.prod i)
              prods := s.prods.set i { p with pc := .readLocked } }
          else none
      | none => none
  | .pReadProt i =>
      match hp : s.prods[i]?, s.engine with
      | some p, some e =>
          if p.pc = .readLocked then
            some { s with
              threadMutex := none
              prods := s.prods.set i { p with pc := .doneRead (readVal p.prog e) } }
          else none
      | _, _ => none

/-- Running a schedule from a state; none as soon as a step is disabled. -/

def runMoves (s : SysState) : List Move → Option SysState
  | [] => some s
  | m :: ms =>
      match applyMove s m with
      | some s1 => runMoves s1 ms
      | none => none

/-- Status of the task a blocking producer is waiting on: either it has
already been executed and its promise slot holds the delivered value, or
it is still pending (in flight or in the queue). -/

def syncTaskOk (s : SysState) (op : PubOp) (t : Task) : Prop :=
  t.op = op ∧ ∃ q, t.pid = some q ∧
    ((∃ entry ∈ s.execLog, entry.task = t ∧ s.promises[q]? = some (some entry.val)) ∨
      t ∈ pendingTasks s)

/-- Per-producer invariant, by program counter: a producer holding or
waiting on a pushed task owns a well-formed sync task; a producer that
returned from a blocking call got exactly the executed value of its own
task; a producer past the initialization wait has seen the flag set. -/

def prodOk (s : SysState) (p : ProdState) : Prop :=
  match p.pc with
  | .locked => classify p.prog = .qAsync ∨ classify p.prog = .qSync
  | .pushedHolding t =>
      (classify p.prog = .qAsync ∨ classify p.prog = .qSync) ∧
      (classify p.prog = .qSync → syncTaskOk s p.prog t)
  | .waitingFuture t => classify p.prog = .qSync ∧ syncTaskOk s p.prog t
  | .doneSync t v => t.op = p.prog ∧ ∃ q, t.pid = some q ∧
      s.promises[q]? = some (some v) ∧
      ∃ entry ∈ s.execLog, entry.task = t ∧ entry.val = v
  | .initObserved => s.isInitialized = true
  | .readLocked => s.isInitialized = true
  | _ => True

/-- Global inductive invariant of the dispatcher. -/

structure SysInv (s : SysState) : Prop where
  fifo : s.pushedLog = s.execLog.map ExecEntry.task ++ pendingTasks s
  lockW : s.threadMutex = some .worker ↔ wHolds s.wpc = true
  lockD : s.threadMutex = some .dtor ↔ dHolds s.dpc = true
  lockP : ∀ i : Nat, s.threadMutex = some (.prod i) ↔
      ∃ p, s.prods[i]? = some p ∧ pHolds p.pc = true
  initM : s.initMutex = initMutexSpec s.wpc
  flagW : wEarly s.wpc = false → s.isInitialized = true
  engSh : engineSpec s.wpc s.engine
  runFl : wLate s.wpc = true → s.running = false
  pendN : (pendingPids s).Nodup
  pendU : ∀ q ∈ pendingPids s, s.promises[q]? = some none
  execC : ∀ entry ∈ s.execLog,
      entry.engAfter = (runOp entry.task.op entry.engBefore).1 ∧
      entry.val = (runOp entry.task.op entry.engBefore).2
  noExecPre : s.isInitialized = false → s.execLog = []
  prodI : ∀ (i : Nat) (p : ProdState), s.prods[i]? = some p → prodOk s p
  djoin : s.dpc = .joined → s.wpc = .done

/-- A concrete engine used for concrete executions: drawLayers fails with
status -22 on display 0 and succeeds (status 0) elsewhere. -/

def engW : RenderEngine where
  maxTextureSize := 4096
  maxViewportDims := 4096
  supportsProtCont := true
  supportsBgBlur := false
  protectedCtx := false
  primed := false
  textures := 0
  viewport := (0, 0)
  displaySize := 0
  mappedBuffers := 0
  drawStatus := fun d => if d = 0 then -22 else 0
  useProtResult := fun _ => true
  cleanupResult := true
  contextPriority := 1
  dumpStr := "dump"

/-- Producer programs of the concrete execution: a blocking genTextures, a
fire-and-forget primeCache, a direct-read isProtected, a failing and a
succeeding blocking drawLayers, and a blocking useProtectedContext that is
still queued at shutdown. -/

def opsMain : List PubOp :=
  [.genTextures 3, .primeCache, .isProtected, .drawLayers 0, .drawLayers 1,
   .useProtectedContext true]

/-- Concrete initial state. -/

def cfg0 : SysState := initState engW opsMain

/-- Schedule up to the point where the worker is mid-execution of the
first blocking task while still holding the queue mutex. -/

def movesMid : List Move :=
  [.wFactory, .wLockMain, .wLockInit, .wSetFlag, .wLoopEnter, .wNoTask,
   .wWaitBlock, .pLockQ 0, .pPush 0, .pReleaseQ 0, .wWake, .wLoopEnter, .wPop]

/-- Full schedule: three tasks execute (one failing), the direct read
completes, two more tasks are pushed, the destructor shuts the system
down, and the worker drops the still queued tasks and exits. -/

def movesFin : List Move := movesMid ++
  [.wExecFinish, .pGetFuture 0, .wWaitBlock, .pLockQ 3, .pPush 3, .pReleaseQ 3,
   .pLockQ 4, .pPush 4, .pReleaseQ 4, .wWake, .wLoopEnter, .wPop, .wExecFinish,
   .pGetFuture 3, .wWaitFast, .wLoopEnter, .wPop, .wExecFinish, .pGetFuture 4,
   .wWaitBlock, .pWaitInit 2, .pLockRead 2, .pReadProt 2, .pLockQ 1, .pPush 1,
   .pReleaseQ 1, .pLockQ 5, .pPush 5, .pReleaseQ 5, .dLock, .dClear, .dNotify,
   .dRelease, .wWake, .wLoopExit, .wReset, .dJoin]

/-- The mid-execution state of the concrete run. -/

def sMid : SysState := (runMoves cfg0 movesMid).getD cfg0

/-- The final state of the concrete run. -/

def sFin : SysState := (runMoves cfg0 movesFin).getD cfg0

/-- Conclusion of claim C1 at a state. -/

def C1concl (s : SysState) : Prop :=
  s.pushedLog = s.execLog.map ExecEntry.task ++ wInflight s.wpc ++ s.queue ∧
  (wInflight s.wpc).length ≤ 1 ∧
  (∀ (l : Tid) (s' : SysState), Step l s s' → s'.execLog ≠ s.execLog →
    l = .worker)

/-- Conclusion of claim C2 for a producer that has returned from a
blocking call. -/

def C2concl (s : SysState) (p : ProdState) (t : Task) (v : Val) : Prop :=
  t.op = p.prog ∧ ∃ q, t.pid = some q ∧
    s.promises[q]? = some (some v) ∧
    ∃ entry ∈ s.execLog, entry.task = t ∧ entry.val = v

/-- Conclusion of claim C3 at a state. -/

def C3concl (s : SysState) : Prop :=
  (∀ (l : Tid) (s' : SysState), Step l s s' →
    s.isInitialized = true → s'.isInitialized = true) ∧
  (∀ (l : Tid) (s' : SysState), Step l s s' →
    s.isInitialized = false → s'.isInitialized = true →
    l = .worker ∧ s.wpc = .lockedInit ∧ s.initMutex = some .worker ∧
      s'.threadMutex = s.threadMutex ∧ s'.queue = s.queue) ∧
  (∀ (i : Nat) (p p' : ProdState) (s' : SysState), Step (.prod i) s s' →
    s.prods[i]? = some p → p.pc = .start →
    (classify p.prog = .dRead ∨ classify p.prog = .dReadLocked) →
    s'.prods[i]? = some p' → p'.pc ≠ .start →
    s.isInitialized = true ∧ s'.threadMutex = s.threadMutex ∧
      s'.queue = s.queue ∧ s'.promises = s.promises) ∧
  (∀ (i : Nat) (p : ProdState), s.prods[i]? = some p → p.pc = .start →
    (classify p.prog = .dRead ∨ classify p.prog = .dReadLocked) →
    s.initMutex = none → s.isInitialized = true →
    Step (.prod i) s
      { s with prods := s.prods.set i { p with pc := .initObserved } })

/-- Conclusion of claim C4 at a state. -/

def C4concl (s : SysState) : Prop :=
  (∀ (l : Tid) (s' : SysState), Step l s s' →
    s.running = true → s'.running = false →
    l = .dtor ∧ s.dpc = .locked ∧ s.threadMutex = some .dtor ∧
      s'.dpc = .cleared) ∧
  (∀ (l : Tid) (s' : SysState), Step l s s' →
    s'.dpc = s.dpc ∨ s'.dpc = dNext s.dpc) ∧
  (∀ (l : Tid) (s' : SysState), Step l s s' →
    s.dpc ≠ .joined → s'.dpc = .joined →
    l = .dtor ∧ s.dpc = .released ∧ s.wpc = .done) ∧
  (s.dpc = .joined → s.wpc = .done ∧ s.engine = none)

/-- Conclusion of claim C5 at a state. -/

def C5concl (s : SysState) : Prop :=
  (∀ (l : Tid) (s' : SysState), Step l s s' → s'.engine ≠ s.engine →
    l = .worker) ∧
  (∀ (l : Tid) (s' : SysState), Step l s s' →
    s.engine = none → s'.engine ≠ none →
    s.wpc = .create ∧ s'.wpc = .ranFactory ∧ l = .worker) ∧
  (∀ (l : Tid) (s' : SysState), Step l s s' →
    s.engine ≠ none → s'.engine = none →
    s.wpc = .resetRE ∧ s'.wpc = .done ∧ s.running = false ∧ l = .worker)

/-- Conclusion of the amended claim C6 at a state. -/

def C6concl (s : SysState) : Prop :=
  (s.threadMutex = some .worker → wHolds s.wpc = true) ∧
  (s.threadMutex = some .dtor → dHolds s.dpc = true) ∧
  (∀ i : Nat, s.threadMutex = some (.prod i) →
    ∃ p, s.prods[i]? = some p ∧ pHolds p.pc = true) ∧
  wHolds .waiting = false ∧
  (∀ t : Task, pHolds (.waitingFuture t) = false) ∧
  pHolds .start = false ∧ dHolds .released = false ∧
  (∀ t : Task, s.wpc = .running t → s.threadMutex = some .worker) ∧
  (∀ (i : Nat) (p : ProdState), s.prods[i]? = some p → p.pc = .start →
    (classify p.prog = .qAsync ∨ classify p.prog = .qSync) →
    s.threadMutex = none →
    Step (.prod i) s
      { s with
        threadMutex := some (.prod i)
        prods := s.prods.set i { p with pc := .locked } })

/-- Conclusion of claim C7 at a state. -/

def C7concl (s : SysState) : Prop :=
  (∀ entry ∈ s.execLog,
    entry.engAfter = (runOp entry.task.op entry.engBefore).1 ∧
    entry.val = (runOp entry.task.op entry.engBefore).2) ∧
  (∀ (i : Nat) (p : ProdState) (t : Task) (v : Val) (d : Nat),
    s.prods[i]? = some p → p.prog = .drawLayers d → p.pc = .doneSync t v →
    ∃ entry ∈ s.execLog, entry.task = t ∧ v = entry.val ∧
      entry.val = .int (entry.engBefore.drawStatus d)) ∧
  (∀ (s' : SysState) (t : Task), Step .worker s s' → s.wpc = .running t →
    s'.running = s.running ∧ s'.queue = s.queue ∧
      s'.pushedLog = s.pushedLog ∧ s'.wpc = .condWaitEntry)

/-- Conclusion of claim C8 at a state. -/

def C8concl (s : SysState) : Prop :=
  (classify .getMaxTextureSize = .dRead ∧
    classify .getMaxViewportDims = .dRead ∧
    classify .isProtected = .dReadLocked ∧
    classify .supportsProtectedContent = .dRead ∧
    classify .supportsBackgroundBlur = .dRead) ∧
  (∀ (i : Nat) (p : ProdState) (s' : SysState), Step (.prod i) s s' →
    s.prods[i]? = some p →
    (classify p.prog = .dRead ∨ classify p.prog = .dReadLocked) →
    s'.queue = s.queue ∧ s'.pushedLog = s.pushedLog ∧
      s'.promises = s.promises) ∧
  (∀ (i : Nat) (p : ProdState) (s' : SysState), Step (.prod i) s s' →
    s.prods[i]? = some p → p.pc = .initObserved → classify p.prog = .dRead →
    s.isInitialized = true ∧ ∃ e : RenderEngine, s.engine = some e ∧
      s'.prods[i]? = some { p with pc := .doneRead (readVal p.prog e) }) ∧
  (∀ (i : Nat) (p : ProdState), s.prods[i]? = some p → p.pc = .readLocked →
    s.threadMutex = some (.prod i) ∧ s.isInitialized = true)

/-- Conclusion of claim C9 at a state. -/

def C9concl (s : SysState) : Prop :=
  (∀ t : Task, s.wpc = .running t →
    s.isInitialized = true ∧ ∃ e : RenderEngine, s.engine = some e) ∧
  (s.isInitialized = false → s.execLog = []) ∧
  s.pushedLog = s.execLog.map ExecEntry.task ++ wInflight s.wpc ++ s.queue

/-- Conclusion of claim C10 at a state. -/

def C10concl (s : SysState) : Prop :=
  (∀ s' : SysState, Step .worker s s' →
    s.wpc = .loopCheck → s.running = false →
    s'.wpc = .resetRE ∧ s'.queue = s.queue ∧ s'.execLog = s.execLog ∧
      s'.promises = s.promises) ∧
  (s.wpc = .done → ∀ s' : SysState, ¬ Step .worker s s') ∧
  (∀ t ∈ s.queue, ∀ q : Nat, t.pid = some q → s.promises[q]? = some none) ∧
  (∀ (t : Task) (e : RenderEngine), s.wpc = .running t → s.engine = some e →
    Step .worker s
      { s with
        engine := some (runOp t.op e).1
        promises := match t.pid with
          | some q => s.promises.set q (some (runOp t.op e).2)
          | none => s.promises
        execLog := s.execLog ++ [⟨t, e, (runOp t.op e).1, (runOp t.op e).2⟩]
        wpc := .condWaitEntry })

/-- Prepending a step to a reachability chain. -/
theorem Reach.head {s s' s'' : SysState} {l : Tid} (hstep : Step l s s')
    (h : Reach s' s'') : Reach s s'' := by
  induction h with
  | refl => exact .tail l .refl hstep
  | tail l' _ hst ih => exact .tail l' ih hst

/-- A successful applyMove is a real transition of the step relation. -/
theorem applyMove_step {s s' : SysState} {m : Move}
    (h : applyMove s m = some s') : ∃ l, Step l s s' := by
  cases m <;> simp only [applyMove] at h
  case wFactory =>
    split at h
    · cases h; exact ⟨_, .wFactory s ‹_›⟩
    · exact absurd h (by simp)
  case wLockMain =>
    split at h
    · next hc => cases h; exact ⟨_, .wLockMain s hc.1 hc.2⟩
    · exact absurd h (by simp)
  case wLockInit =>
    split at h
    · next hc => cases h; exact ⟨_, .wLockInit s hc.1 hc.2⟩
    · exact absurd h (by simp)
  case wSetFlag =>
    split at h
    · cases h; exact ⟨_, .wSetFlag s ‹_›⟩
    · exact absurd h (by simp)
  case wLoopEnter =>
    split at h
    · next hc => cases h; exact ⟨_, .wLoopEnter s hc.1 hc.2⟩
    · exact absurd h (by simp)
  case wLoopExit =>
    split at h
    · next hc => cases h; exact ⟨_, .wLoopExit s hc.1 hc.2⟩
    · exact absurd h (by simp)
  case wPop =>
    split at h
    · next t rest hq =>
        split at h
        · cases h; exact ⟨_, .wPop s t rest ‹_› hq⟩
        · exact absurd h (by simp)
    · exact absurd h (by simp)
  case wNoTask =>
    split at h
    · next hc => cases h; exact ⟨_, .wNoTask s hc.1 hc.2⟩
    · exact absurd h (by simp)
  case wExecFinish =>
    split at h
    · next t e hw he => cases h; exact ⟨_, .wExecFinish s t e hw he⟩
    · exact absurd h (by simp)
  case wWaitFast =>
    split at h
    · next hc => cases h; exact ⟨_, .wWaitFast s hc.1 hc.2⟩
    · exact absurd h (by simp)
  case wWaitBlock =>
    split at h
    · next hc => cases h; exact ⟨_, .wWaitBlock s hc.1 hc.2.1 hc.2.2⟩
    · exact absurd h (by simp)
  case wWake =>
    split at h
    · next hc => cases h; exact ⟨_, .wWake s hc.1 hc.2.1 hc.2.2⟩
    · exact absurd h (by simp)
  case wReset =>
    split at h
    · cases h; exact ⟨_, .wReset s ‹_›⟩
    · exact absurd h (by simp)
  case dLock =>
    split at h
    · next hc => cases h; exact ⟨_, .dLock s hc.1 hc.2⟩
    · exact absurd h (by simp)
  case dClear =>
    split at h
    · cases h; exact ⟨_, .dClear s ‹_›⟩
    · exact absurd h (by simp)
  case dNotify =>
    split at h
    · cases h; exact ⟨_, .dNotify s ‹_›⟩
    · exact absurd h (by simp)
  case dRelease =>
    split at h
    · cases h; exact ⟨_, .dRelease s ‹_›⟩
    · exact absurd h (by simp)
  case dJoin =>
    split at h
    · next hc => cases h; exact ⟨_, .dJoin s hc.1 hc.2⟩
    · exact absurd h (by simp)
  case pLockQ i =>
    split at h
    · next p hp =>
        split at h
        · next hc => cases h; exact ⟨_, .pLockQ s i p hp hc.1 hc.2.1 hc.2.2⟩
        · exact absurd h (by simp)
    · exact absurd h (by simp)
  case pPush i =>
    split at h
    · next p hp =>
        split at h
        · cases h; exact ⟨_, .pPush s i p hp ‹_›⟩
        · exact absurd h (by simp)
    · exact absurd h (by simp)
  case pReleaseQ i =>
    split at h
    · next p hp =>
        split at h
        · next t hpc => cases h; exact ⟨_, .pReleaseQ s i p t hp hpc⟩
        · exact absurd h (by simp)
    · exact absurd h (by simp)
  case pGetFuture i =>
    split at h
    · next p hp =>
        split at h
        · next t hpc =>
            split at h
            · next q hq =>
                split at h
                · next v hv =>
                    cases h; exact ⟨_, .pGetFuture s i p t q v hp hpc hq hv⟩
                · exact absurd h (by simp)
            · exact absurd h (by simp)
        · exact absurd h (by simp)
    · exact absurd h (by simp)
  case pWaitInit i =>
    split at h
    · next p hp =>
        split at h
        · next hc =>
            cases h; exact ⟨_, .pWaitInit s i p hp hc.1 hc.2.1 hc.2.2.1 hc.2.2.2⟩
        · exact absurd h (by simp)
    · exact absurd h (by simp)
  case pRead i =>
    split at h
    · next p e hp he =>
        split at h
        · next hc => cases h; exact ⟨_, .pRead s i p e hp hc.1 hc.2 he⟩
        · exact absurd h (by simp)
    · exact absurd h (by simp)
  case pLockRead i =>
    split at h
    · next p hp =>
        split at h
        · next hc => cases h; exact ⟨_, .pLockRead s i p hp hc.1 hc.2.1 hc.2.2⟩
        · exact absurd h (by simp)
    · exact absurd h (by simp)
  case pReadProt i =>
    split at h
    · next p e hp he =>
        split at h
        · cases h; exact ⟨_, .pReadProt s i p e hp ‹_› he⟩
        · exact absurd h (by simp)
    · exact absurd h (by simp)

/-- A successful schedule yields a reachable state. -/
theorem runMoves_reach : ∀ (ms : List Move) {s s' : SysState},
    runMoves s ms = some s' → Reach s s'
  | [], _, _, h => by cases h; exact .refl
  | m :: ms, s, s', h => by
      cases hm : applyMove s m with
      | none => rw [runMoves, hm] at h; exact Option.noConfusion h
      | some s1 =>
          rw [runMoves, hm] at h
          obtain ⟨l, hl⟩ := applyMove_step hm
          exact Reach.head hl (runMoves_reach ms h)

/-- Appending on the right preserves positional lookups that succeed. -/
theorem getElem?_append_pres {α : Type} {l l' : List α} {q : Nat} {v : α}
    (h : l[q]? = some v) : (l ++ l')[q]? = some v := by
  have hlt : q < l.length := (List.getElem?_eq_some.1 h).1
  rw [List.getElem?_append, if_pos hlt]
  exact h

/-- Setting one slot preserves lookups of other slots. -/
theorem getElem?_set_pres {α : Type} {l : List α} {q q' : Nat} {v a : α}
    (h : l[q]? = some v) (hne : q' ≠ q) : (l.set q' a)[q]? = some v := by
  rw [List.getElem?_set_ne hne]; exact h

/-- Setting the slot named by a successful lookup. -/
theorem getElem?_set_self_of {α : Type} {l : List α} {i : Nat} {p a : α}
    (hp : l[i]? = some p) : (l.set i a)[i]? = some a :=
  List.getElem?_set_self (List.getElem?_eq_some.1 hp).1

/-- prodOk transports along any state change that keeps execution entries,
keeps filled promises, keeps the initialization flag, and either keeps a
pending task pending or records its execution. -/
theorem prodOk_of {s s' : SysState} {p : ProdState}
    (h : prodOk s p)
    (hexec : ∀ entry ∈ s.execLog, entry ∈ s'.execLog)
    (hprom : ∀ (q : Nat) (v : Val), s.promises[q]? = some (some v) → s'.promises[q]? = some (some v))
    (hpend : ∀ t ∈ pendingTasks s, t ∈ pendingTasks s' ∨
      ∃ entry ∈ s'.execLog, entry.task = t ∧
        ∀ q, t.pid = some q → s'.promises[q]? = some (some entry.val))
    (hflag : s.isInitialized = true → s'.isInitialized = true) :
    prodOk s' p := by
  have hsync : ∀ op t, syncTaskOk s op t → syncTaskOk s' op t := by
    intro op t ht
    obtain ⟨hop, q, hq, hc⟩ := ht
    refine ⟨hop, q, hq, ?_⟩
    rcases hc with ⟨entry, hmem, htask, hval⟩ | hpend0
    · exact Or.inl ⟨entry, hexec entry hmem, htask, hprom q entry.val hval⟩
    · rcases hpend t hpend0 with h1 | ⟨entry, hmem, htask, hall⟩
      · exact Or.inr h1
      · exact Or.inl ⟨entry, hmem, htask, hall q hq⟩
  unfold prodOk at h ⊢
  cases hpc : p.pc <;> rw [hpc] at h <;> try exact h
  case pushedHolding t => exact ⟨h.1, fun hs => hsync _ _ (h.2 hs)⟩
  case waitingFuture t => exact ⟨h.1, hsync _ _ h.2⟩
  case doneSync t v =>
    obtain ⟨hop, q, hq, hv, entry, hmem, htask, hval⟩ := h
    exact ⟨hop, q, hq, hprom q v hv, entry, hexec entry hmem, htask, hval⟩
  case initObserved => exact hflag h
  case readLocked => exact hflag h

/-- The invariant holds in the initial state. -/
theorem init_inv (eng0 : RenderEngine) (ops : List PubOp) :
    SysInv (initState eng0 ops) := by
  refine ⟨?_, ?_, ?_, ?_, ?_, ?_, ?_, ?_, ?_, ?_, ?_, ?_, ?_, ?_⟩
  · simp [initState, pendingTasks, wInflight]
  · simp [initState, wHolds]
  · simp [initState, dHolds]
  · intro i
    simp only [initState]
    constructor
    · intro h; exact absurd h (by simp)
    · rintro ⟨p, hp, hh⟩
      rw [List.getElem?_map] at hp
      cases ho : ops[i]? with
      | none => rw [ho] at hp; exact absurd hp (by simp)
      | some o =>
          rw [ho] at hp
          simp only [Option.map_some', Option.some.injEq] at hp
          rw [← hp] at hh
          exact absurd hh (by simp [pHolds])
  · simp [initState, initMutexSpec]
  · simp [initState, wEarly]
  · simp [initState, engineSpec]
  · simp [initState, wLate]
  · simp [initState, pendingPids, pendingTasks, wInflight]
  · simp [initState, pendingPids, pendingTasks, wInflight]
  · simp [initState]
  · simp [initState]
  · intro i p hp
    simp only [initState, List.getElem?_map] at hp
    cases ho : ops[i]? with
    | none => rw [ho] at hp; exact absurd hp (by simp)
    | some o =>
        rw [ho] at hp
        simp only [Option.map_some', Option.some.injEq] at hp
        rw [← hp]
        simp [prodOk]
  · simp [initState]

/-- If the worker does not own the queue mutex, its program counter is
not at a holding point. -/
theorem holdsW_ne {s : SysState} (hI : SysInv s)
    (hx : s.threadMutex ≠ some .worker) : ¬ wHolds s.wpc = true :=
  fun hb => hx (hI.lockW.mpr hb)

/-- If the destructor does not own the queue mutex, its program counter is
not at a holding point. -/
theorem holdsD_ne {s : SysState} (hI : SysInv s)
    (hx : s.threadMutex ≠ some .dtor) : ¬ dHolds s.dpc = true :=
  fun hb => hx (hI.lockD.mpr hb)

/-- If producer j does not own the queue mutex, it is not at a holding
program point. -/
theorem holdsP_not {s : SysState} (hI : SysInv s) (j : Nat)
    (hx : s.threadMutex ≠ some (.prod j)) :
    ¬ ∃ pp, s.prods[j]? = some pp ∧ pHolds pp.pc = true :=
  fun hex => hx ((hI.lockP j).mpr hex)

/-- The invariant is preserved by every step of every thread. -/
theorem step_inv {l : Tid} {s s' : SysState} (hstep : Step l s s')
    (hI : SysInv s) : SysInv s' := by
  cases hstep with
  | wFactory s hw =>
      refine ⟨?_, ?_, ?_, ?_, ?_, ?_, ?_, ?_, ?_, ?_, ?_, ?_, ?_, ?_⟩
      · simpa [pendingTasks, wInflight, hw] using hI.fifo
      · simpa [wHolds, hw] using hI.lockW
      · exact hI.lockD
      · exact hI.lockP
      · simpa [initMutexSpec, hw] using hI.initM
      · simp [wEarly]
      · simp [engineSpec]
      · simp [wLate]
      · simpa [pendingPids, pendingTasks, wInflight, hw] using hI.pendN
      · simpa [pendingPids, pendingTasks, wInflight, hw] using hI.pendU
      · exact hI.execC
      · exact hI.noExecPre
      · intro j pp hpp
        refine prodOk_of (hI.prodI j pp hpp) (fun e he => he) (fun q v hv => hv)
          (fun t ht => Or.inl (by simpa [pendingTasks, wInflight, hw] using ht))
          (fun x => x)
      · intro hj; have hd := hI.djoin hj; rw [hw] at hd; exact absurd hd (by simp)
  | wLockMain s hw hm =>
      refine ⟨?_, ?_, ?_, ?_, ?_, ?_, ?_, ?_, ?_, ?_, ?_, ?_, ?_, ?_⟩
      · simpa [pendingTasks, wInflight, hw] using hI.fifo
      · simp [wHolds]
      · exact iff_of_false (by simp) (fun hb => absurd (hI.lockD.mpr hb) (by simp [hm]))
      · exact fun j => iff_of_false (by simp) (fun hex => absurd ((hI.lockP j).mpr hex) (by simp [hm]))
      · simpa [initMutexSpec, hw] using hI.initM
      · simp [wEarly]
      · simpa [engineSpec, hw] using hI.engSh
      · simp [wLate]
      · simpa [pendingPids, pendingTasks, wInflight, hw] using hI.pendN
      · simpa [pendingPids, pendingTasks, wInflight, hw] using hI.pendU
      · exact hI.execC
      · exact hI.noExecPre
      · intro j pp hpp
        refine prodOk_of (hI.prodI j pp hpp) (fun e he => he) (fun q v hv => hv)
          (fun t ht => Or.inl (by simpa [pendingTasks, wInflight, hw] using ht))
          (fun x => x)
      · intro hj; have hd := hI.djoin hj; rw [hw] at hd; exact absurd hd (by simp)
  | wLockInit s hw hm =>
      refine ⟨?_, ?_, ?_, ?_, ?_, ?_, ?_, ?_, ?_, ?_, ?_, ?_, ?_, ?_⟩
      · simpa [pendingTasks, wInflight, hw] using hI.fifo
      · simpa [wHolds, hw] using hI.lockW
      · exact hI.lockD
      · exact hI.lockP
      · simp [initMutexSpec]
      · simp [wEarly]
      · simpa [engineSpec, hw] using hI.engSh
      · simp [wLate]
      · simpa [pendingPids, pendingTasks, wInflight, hw] using hI.pendN
      · simpa [pendingPids, pendingTasks, wInflight, hw] using hI.pendU
      · exact hI.execC
      · exact hI.noExecPre
      · intro j pp hpp
        refine prodOk_of (hI.prodI j pp hpp) (fun e he => he) (fun q v hv => hv)
          (fun t ht => Or.inl (by simpa [pendingTasks, wInflight, hw] using ht))
          (fun x => x)
      · intro hj; have hd := hI.djoin hj; rw [hw] at hd; exact absurd hd (by simp)
  | wSetFlag s hw =>
      refine ⟨?_, ?_, ?_, ?_, ?_, ?_, ?_, ?_, ?_, ?_, ?_, ?_, ?_, ?_⟩
      · simpa [pendingTasks, wInflight, hw] using hI.fifo
      · simpa [wHolds, hw] using hI.lockW
      · exact hI.lockD
      · exact hI.lockP
      · simp [initMutexSpec]
      · exact fun _ => rfl
      · simpa [engineSpec, hw] using hI.engSh
      · simp [wLate]
      · simpa [pendingPids, pendingTasks, wInflight, hw] using hI.pendN
      · simpa [pendingPids, pendingTasks, wInflight, hw] using hI.pendU
      · exact hI.execC
      · intro hf; exact absurd hf (by simp)
      · intro j pp hpp
        refine prodOk_of (hI.prodI j pp hpp) (fun e he => he) (fun q v hv => hv)
          (fun t ht => Or.inl (by simpa [pendingTasks, wInflight, hw] using ht))
          (fun _ => rfl)
      · intro hj; have hd := hI.djoin hj; rw [hw] at hd; exact absurd hd (by simp)
  | wLoopEnter s hw hr =>
      refine ⟨?_, ?_, ?_, ?_, ?_, ?_, ?_, ?_, ?_, ?_, ?_, ?_, ?_, ?_⟩
      · simpa [pendingTasks, wInflight, hw] using hI.fifo
      · simpa [wHolds, hw] using hI.lockW
      · exact hI.lockD
      · exact hI.lockP
      · simpa [initMutexSpec, hw] using hI.initM
      · exact fun _ => hI.flagW (by simp [hw, wEarly])
      · simpa [engineSpec, hw] using hI.engSh
      · simp [wLate]
      · simpa [pendingPids, pendingTasks, wInflight, hw] using hI.pendN
      · simpa [pendingPids, pendingTasks, wInflight, hw] using hI.pendU
      · exact hI.execC
      · exact hI.noExecPre
      · intro j pp hpp
        refine prodOk_of (hI.prodI j pp hpp) (fun e he => he) (fun q v hv => hv)
          (fun t ht => Or.inl (by simpa [pendingTasks, wInflight, hw] using ht))
          (fun x => x)
      · intro hj; have hd := hI.djoin hj; rw [hw] at hd; exact absurd hd (by simp)
  | wLoopExit s hw hr =>
      refine ⟨?_, ?_, ?_, ?_, ?_, ?_, ?_, ?_, ?_, ?_, ?_, ?_, ?_, ?_⟩
      · simpa [pendingTasks, wInflight, hw] using hI.fifo
      · simpa [wHolds, hw] using hI.lockW
      · exact hI.lockD
      · exact hI.lockP
      · simpa [initMutexSpec, hw] using hI.initM
      · exact fun _ => hI.flagW (by simp [hw, wEarly])
      · simpa [engineSpec, hw] using hI.engSh
      · exact fun _ => hr
      · simpa [pendingPids, pendingTasks, wInflight, hw] using hI.pendN
      · simpa [pendingPids, pendingTasks, wInflight, hw] using hI.pendU
      · exact hI.execC
      · exact hI.noExecPre
      · intro j pp hpp
        refine prodOk_of (hI.prodI j pp hpp) (fun e he => he) (fun q v hv => hv)
          (fun t ht => Or.inl (by simpa [pendingTasks, wInflight, hw] using ht))
          (fun x => x)
      · intro hj; have hd := hI.djoin hj; rw [hw] at hd; exact absurd hd (by simp)
  | wPop s t rest hw hq =>
      refine ⟨?_, ?_, ?_, ?_, ?_, ?_, ?_, ?_, ?_, ?_, ?_, ?_, ?_, ?_⟩
      · simpa [pendingTasks, wInflight, hw, hq] using hI.fifo
      · simpa [wHolds, hw] using hI.lockW
      · exact hI.lockD
      · exact hI.lockP
      · simpa [initMutexSpec, hw] using hI.initM
      · exact fun _ => hI.flagW (by simp [hw, wEarly])
      · simpa [engineSpec, hw] using hI.engSh
      · simp [wLate]
      · simpa [pendingPids, pendingTasks, wInflight, hw, hq] using hI.pendN
      · simpa [pendingPids, pendingTasks, wInflight, hw, hq] using hI.pendU
      · exact hI.execC
      · exact hI.noExecPre
      · intro j pp hpp
        refine prodOk_of (hI.prodI j pp hpp) (fun e he => he) (fun q v hv => hv)
          (fun t2 ht2 => Or.inl
            (by simpa [pendingTasks, wInflight, hw, hq] using ht2))
          (fun x => x)
      · intro hj; have hd := hI.djoin hj; rw [hw] at hd; exact absurd hd (by simp)
  | wNoTask s hw hq =>
      refine ⟨?_, ?_, ?_, ?_, ?_, ?_, ?_, ?_, ?_, ?_, ?_, ?_, ?_, ?_⟩
      · simpa [pendingTasks, wInflight, hw] using hI.fifo
      · simpa [wHolds, hw] using hI.lockW
      · exact hI.lockD
      · exact hI.lockP
      · simpa [initMutexSpec, hw] using hI.initM
      · exact fun _ => hI.flagW (by simp [hw, wEarly])
      · simpa [engineSpec, hw] using hI.engSh
      · simp [wLate]
      · simpa [pendingPids, pendingTasks, wInflight, hw] using hI.pendN
      · simpa [pendingPids, pendingTasks, wInflight, hw] using hI.pendU
      · exact hI.execC
      · exact hI.noExecPre
      · intro j pp hpp
        refine prodOk_of (hI.prodI j pp hpp) (fun e he => he) (fun q v hv => hv)
          (fun t ht => Or.inl (by simpa [pendingTasks, wInflight, hw] using ht))
          (fun x => x)
      · intro hj; have hd := hI.djoin hj; rw [hw] at hd; exact absurd hd (by simp)
  | wExecFinish s t e hw he =>
      have hflag : s.isInitialized = true := hI.flagW (by simp [hw, wEarly])
      have hold : pendingTasks s = t :: s.queue := by
        simp [pendingTasks, wInflight, hw]
      have holdps : ∀ q0 : Nat, t.pid = some q0 →
          pendingPids s = q0 :: s.queue.filterMap Task.pid := by
        intro q0 hq0
        rw [pendingPids, hold, List.filterMap_cons, hq0]
      have holdpn : t.pid = none →
          pendingPids s = s.queue.filterMap Task.pid := by
        intro hq0
        rw [pendingPids, hold, List.filterMap_cons, hq0]
      refine ⟨?_, ?_, ?_, ?_, ?_, ?_, ?_, ?_, ?_, ?_, ?_, ?_, ?_, ?_⟩
      · have := hI.fifo
        rw [hold] at this
        simpa [pendingTasks, wInflight, List.append_assoc] using this
      · simpa [wHolds, hw] using hI.lockW
      · exact hI.lockD
      · exact hI.lockP
      · simpa [initMutexSpec, hw] using hI.initM
      · exact fun _ => hflag
      · simp [engineSpec]
      · simp [wLate]
      · simp only [pendingPids, pendingTasks, wInflight, List.nil_append]
        cases hqid : t.pid with
        | none =>
            have hN := hI.pendN
            rw [holdpn hqid] at hN
            exact hN
        | some q0 =>
            have hN := hI.pendN
            rw [holdps q0 hqid] at hN
            exact hN.of_cons
      · intro q hq
        simp only [pendingPids, pendingTasks, wInflight, List.nil_append] at hq
        cases hqid : t.pid with
        | none =>
            have hqold : q ∈ pendingPids s := by rw [holdpn hqid]; exact hq
            simpa [hqid] using hI.pendU q hqold
        | some q0 =>
            have hqold : q ∈ pendingPids s := by
              rw [holdps q0 hqid]
              exact List.mem_cons_of_mem _ hq
            have hval := hI.pendU q hqold
            have hne : q0 ≠ q := by
              have hN := hI.pendN
              rw [holdps q0 hqid] at hN
              intro hqq
              subst hqq
              exact (List.nodup_cons.1 hN).1 hq
            simpa [hqid] using getElem?_set_pres hval hne
      · intro entry hmem
        rcases List.mem_append.1 hmem with h1 | h2
        · exact hI.execC entry h1
        · simp only [List.mem_singleton] at h2
          subst h2
          exact ⟨rfl, rfl⟩
      · intro hf
        have hf2 : s.isInitialized = false := hf
        rw [hflag] at hf2
        exact absurd hf2 (by simp)
      · intro j pp hpp
        refine prodOk_of (hI.prodI j pp hpp) ?_ ?_ ?_ (fun x => x)
        · exact fun en hen => List.mem_append_left _ hen
        · intro q v hv
          cases hqid : t.pid with
          | none => simpa [hqid] using hv
          | some q0 =>
              have hq0mem : q0 ∈ pendingPids s := by rw [holdps q0 hqid]; simp
              have hq0 := hI.pendU q0 hq0mem
              have hne : q0 ≠ q := by
                intro hqq
                subst hqq
                rw [hv] at hq0
                exact absurd hq0 (by simp)
              simpa [hqid] using getElem?_set_pres hv hne
        · intro t2 ht2
          rw [hold] at ht2
          rcases List.mem_cons.1 ht2 with rfl | h2
          · refine Or.inr ⟨⟨t2, e, (runOp t2.op e).1, (runOp t2.op e).2⟩,
              List.mem_append_right _ (by simp), rfl, ?_⟩
            intro q hq
            have hqmem : q ∈ pendingPids s := by rw [holdps q hq]; simp
            have hqv := hI.pendU q hqmem
            simpa [hq] using getElem?_set_self_of hqv
          · exact Or.inl (by simpa [pendingTasks, wInflight] using h2)
      · intro hj; have hd := hI.djoin hj; rw [hw] at hd; exact absurd hd (by simp)
  | wWaitFast s hw hp =>
      refine ⟨?_, ?_, ?_, ?_, ?_, ?_, ?_, ?_, ?_, ?_, ?_, ?_, ?_, ?_⟩
      · simpa [pendingTasks, wInflight, hw] using hI.fifo
      · simpa [wHolds, hw] using hI.lockW
      · exact hI.lockD
      · exact hI.lockP
      · simpa [initMutexSpec, hw] using hI.initM
      · exact fun _ => hI.flagW (by simp [hw, wEarly])
      · simpa [engineSpec, hw] using hI.engSh
      · simp [wLate]
      · simpa [pendingPids, pendingTasks, wInflight, hw] using hI.pendN
      · simpa [pendingPids, pendingTasks, wInflight, hw] using hI.pendU
      · exact hI.execC
      · exact hI.noExecPre
      · intro j pp hpp
        refine prodOk_of (hI.prodI j pp hpp) (fun e he => he) (fun q v hv => hv)
          (fun t ht => Or.inl (by simpa [pendingTasks, wInflight, hw] using ht))
          (fun x => x)
      · intro hj; have hd := hI.djoin hj; rw [hw] at hd; exact absurd hd (by simp)
  | wWaitBlock s hw hr hq =>
      have hma : s.threadMutex = some .worker := hI.lockW.mpr (by simp [hw, wHolds])
      refine ⟨?_, ?_, ?_, ?_, ?_, ?_, ?_, ?_, ?_, ?_, ?_, ?_, ?_, ?_⟩
      · simpa [pendingTasks, wInflight, hw] using hI.fifo
      · simp [wHolds]
      · exact iff_of_false (by simp) (fun hb => absurd (hI.lockD.mpr hb) (by simp [hma]))
      · exact fun j => iff_of_false (by simp) (fun hex => absurd ((hI.lockP j).mpr hex) (by simp [hma]))
      · simpa [initMutexSpec, hw] using hI.initM
      · exact fun _ => hI.flagW (by simp [hw, wEarly])
      · simpa [engineSpec, hw] using hI.engSh
      · simp [wLate]
      · simpa [pendingPids, pendingTasks, wInflight, hw] using hI.pendN
      · simpa [pendingPids, pendingTasks, wInflight, hw] using hI.pendU
      · exact hI.execC
      · exact hI.noExecPre
      · intro j pp hpp
        refine prodOk_of (hI.prodI j pp hpp) (fun e he => he) (fun q v hv => hv)
          (fun t ht => Or.inl (by simpa [pendingTasks, wInflight, hw] using ht))
          (fun x => x)
      · intro hj; have hd := hI.djoin hj; rw [hw] at hd; exact absurd hd (by simp)
  | wWake s hw hm hp =>
      refine ⟨?_, ?_, ?_, ?_, ?_, ?_, ?_, ?_, ?_, ?_, ?_, ?_, ?_, ?_⟩
      · simpa [pendingTasks, wInflight, hw] using hI.fifo
      · simp [wHolds]
      · exact iff_of_false (by simp) (fun hb => absurd (hI.lockD.mpr hb) (by simp [hm]))
      · exact fun j => iff_of_false (by simp) (fun hex => absurd ((hI.lockP j).mpr hex) (by simp [hm]))
      · simpa [initMutexSpec, hw] using hI.initM
      · exact fun _ => hI.flagW (by simp [hw, wEarly])
      · simpa [engineSpec, hw] using hI.engSh
      · simp [wLate]
      · simpa [pendingPids, pendingTasks, wInflight, hw] using hI.pendN
      · simpa [pendingPids, pendingTasks, wInflight, hw] using hI.pendU
      · exact hI.execC
      · exact hI.noExecPre
      · intro j pp hpp
        refine prodOk_of (hI.prodI j pp hpp) (fun e he => he) (fun q v hv => hv)
          (fun t ht => Or.inl (by simpa [pendingTasks, wInflight, hw] using ht))
          (fun x => x)
      · intro hj; have hd := hI.djoin hj; rw [hw] at hd; exact absurd hd (by simp)
  | wReset s hw =>
      have hma : s.threadMutex = some .worker := hI.lockW.mpr (by simp [hw, wHolds])
      refine ⟨?_, ?_, ?_, ?_, ?_, ?_, ?_, ?_, ?_, ?_, ?_, ?_, ?_, ?_⟩
      · simpa [pendingTasks, wInflight, hw] using hI.fifo
      · simp [wHolds]
      · exact iff_of_false (by simp) (fun hb => absurd (hI.lockD.mpr hb) (by simp [hma]))
      · exact fun j => iff_of_false (by simp) (fun hex => absurd ((hI.lockP j).mpr hex) (by simp [hma]))
      · simpa [initMutexSpec, hw] using hI.initM
      · exact fun _ => hI.flagW (by simp [hw, wEarly])
      · simp [engineSpec]
      · exact fun _ => hI.runFl (by simp [hw, wLate])
      · simpa [pendingPids, pendingTasks, wInflight, hw] using hI.pendN
      · simpa [pendingPids, pendingTasks, wInflight, hw] using hI.pendU
      · exact hI.execC
      · exact hI.noExecPre
      · intro j pp hpp
        refine prodOk_of (hI.prodI j pp hpp) (fun e he => he) (fun q v hv => hv)
          (fun t ht => Or.inl (by simpa [pendingTasks, wInflight, hw] using ht))
          (fun x => x)
      · exact fun _ => rfl
  | dLock s hd hm =>
      refine ⟨?_, ?_, ?_, ?_, ?_, ?_, ?_, ?_, ?_, ?_, ?_, ?_, ?_, ?_⟩
      · exact hI.fifo
      · exact iff_of_false (by simp) (fun hb => absurd (hI.lockW.mpr hb) (by simp [hm]))
      · simp [dHolds]
      · exact fun j => iff_of_false (by simp) (fun hex => absurd ((hI.lockP j).mpr hex) (by simp [hm]))
      · exact hI.initM
      · exact hI.flagW
      · exact hI.engSh
      · exact hI.runFl
      · exact hI.pendN
      · exact hI.pendU
      · exact hI.execC
      · exact hI.noExecPre
      · intro j pp hpp
        exact prodOk_of (hI.prodI j pp hpp) (fun e he => he) (fun q v hv => hv)
          (fun t ht => Or.inl ht) (fun x => x)
      · intro hj; exact absurd hj (by simp)
  | dClear s hd =>
      refine ⟨?_, ?_, ?_, ?_, ?_, ?_, ?_, ?_, ?_, ?_, ?_, ?_, ?_, ?_⟩
      · exact hI.fifo
      · exact hI.lockW
      · simpa [dHolds, hd] using hI.lockD
      · exact hI.lockP
      · exact hI.initM
      · exact hI.flagW
      · exact hI.engSh
      · exact fun _ => rfl
      · exact hI.pendN
      · exact hI.pendU
      · exact hI.execC
      · exact hI.noExecPre
      · intro j pp hpp
        exact prodOk_of (hI.prodI j pp hpp) (fun e he => he) (fun q v hv => hv)
          (fun t ht => Or.inl ht) (fun x => x)
      · intro hj; exact absurd hj (by simp)
  | dNotify s hd =>
      refine ⟨?_, ?_, ?_, ?_, ?_, ?_, ?_, ?_, ?_, ?_, ?_, ?_, ?_, ?_⟩
      · exact hI.fifo
      · exact hI.lockW
      · simpa [dHolds, hd] using hI.lockD
      · exact hI.lockP
      · exact hI.initM
      · exact hI.flagW
      · exact hI.engSh
      · exact hI.runFl
      · exact hI.pendN
      · exact hI.pendU
      · exact hI.execC
      · exact hI.noExecPre
      · intro j pp hpp
        exact prodOk_of (hI.prodI j pp hpp) (fun e he => he) (fun q v hv => hv)
          (fun t ht => Or.inl ht) (fun x => x)
      · intro hj; exact absurd hj (by simp)
  | dRelease s hd =>
      have hma : s.threadMutex = some .dtor := hI.lockD.mpr (by simp [hd, dHolds])
      refine ⟨?_, ?_, ?_, ?_, ?_, ?_, ?_, ?_, ?_, ?_, ?_, ?_, ?_, ?_⟩
      · exact hI.fifo
      · exact iff_of_false (by simp) (fun hb => absurd (hI.lockW.mpr hb) (by simp [hma]))
      · simp [dHolds]
      · exact fun j => iff_of_false (by simp) (fun hex => absurd ((hI.lockP j).mpr hex) (by simp [hma]))
      · exact hI.initM
      · exact hI.flagW
      · exact hI.engSh
      · exact hI.runFl
      · exact hI.pendN
      · exact hI.pendU
      · exact hI.execC
      · exact hI.noExecPre
      · intro j pp hpp
        exact prodOk_of (hI.prodI j pp hpp) (fun e he => he) (fun q v hv => hv)
          (fun t ht => Or.inl ht) (fun x => x)
      · intro hj; exact absurd hj (by simp)
  | dJoin s hd hw =>
      refine ⟨?_, ?_, ?_, ?_, ?_, ?_, ?_, ?_, ?_, ?_, ?_, ?_, ?_, ?_⟩
      · exact hI.fifo
      · exact hI.lockW
      · simpa [dHolds, hd] using hI.lockD
      · exact hI.lockP
      · exact hI.initM
      · exact hI.flagW
      · exact hI.engSh
      · exact hI.runFl
      · exact hI.pendN
      · exact hI.pendU
      · exact hI.execC
      · exact hI.noExecPre
      · intro j pp hpp
        exact prodOk_of (hI.prodI j pp hpp) (fun e he => he) (fun q v hv => hv)
          (fun t ht => Or.inl ht) (fun x => x)
      · exact fun _ => hw
  | pLockQ s i p hp hpc hc hm =>
      refine ⟨?_, ?_, ?_, ?_, ?_, ?_, ?_, ?_, ?_, ?_, ?_, ?_, ?_, ?_⟩
      · exact hI.fifo
      · exact iff_of_false (by simp) (fun hb => absurd (hI.lockW.mpr hb) (by simp [hm]))
      · exact iff_of_false (by simp) (fun hb => absurd (hI.lockD.mpr hb) (by simp [hm]))
      · intro j
        by_cases hj : j = i
        · subst hj
          exact iff_of_true rfl
            ⟨{ p with pc := .locked }, getElem?_set_self_of hp, by simp [pHolds]⟩
        · refine iff_of_false (fun hx => ?_) (fun hex => ?_)
          · simp only [Option.some.injEq, Tid.prod.injEq] at hx
            exact hj hx.symm
          · obtain ⟨pp, hpp, hh⟩ := hex
            rw [List.getElem?_set_ne (fun hh2 => hj hh2.symm)] at hpp
            exact holdsP_not hI j (by simp [hm]) ⟨pp, hpp, hh⟩
      · exact hI.initM
      · exact hI.flagW
      · exact hI.engSh
      · exact hI.runFl
      · exact hI.pendN
      · exact hI.pendU
      · exact hI.execC
      · exact hI.noExecPre
      · intro j pp hpp
        by_cases hj : j = i
        · subst hj
          rw [getElem?_set_self_of hp] at hpp
          cases hpp
          exact hc
        · rw [List.getElem?_set_ne (fun hh2 => hj hh2.symm)] at hpp
          exact prodOk_of (hI.prodI j pp hpp) (fun e he => he) (fun q v hv => hv)
            (fun t ht => Or.inl ht) (fun x => x)
      · intro hj; exact hI.djoin hj
  | pPush s i p hp hpc =>
      have hpt : pendingTasks
          { s with
            queue := s.queue ++ [pushTask s p.prog]
            pushedLog := s.pushedLog ++ [pushTask s p.prog]
            promises := if classify p.prog = .qSync then s.promises ++ [none]
              else s.promises
            prods := s.prods.set i { p with pc := .pushedHolding (pushTask s p.prog) } } =
          pendingTasks s ++ [pushTask s p.prog] := by
        simp [pendingTasks, List.append_assoc]
      refine ⟨?_, ?_, ?_, ?_, ?_, ?_, ?_, ?_, ?_, ?_, ?_, ?_, ?_, ?_⟩
      · rw [hI.fifo]
        simp [pendingTasks, List.append_assoc]
      · exact hI.lockW
      · exact hI.lockD
      · intro j
        by_cases hj : j = i
        · subst hj
          have hma : s.threadMutex = some (.prod j) :=
            (hI.lockP j).mpr ⟨p, hp, by simp [hpc, pHolds]⟩
          exact iff_of_true hma
            ⟨{ p with pc := .pushedHolding (pushTask s p.prog) },
              getElem?_set_self_of hp, by simp [pHolds]⟩
        · rw [List.getElem?_set_ne (fun hh2 => hj hh2.symm)]
          exact hI.lockP j
      · exact hI.initM
      · exact hI.flagW
      · exact hI.engSh
      · exact hI.runFl
      · rw [pendingPids, hpt, List.filterMap_append]
        by_cases hcs : classify p.prog = .qSync
        · have hft : List.filterMap Task.pid [pushTask s p.prog] =
              [s.promises.length] := by simp [pushTask, hcs]
          rw [hft, List.nodup_append]
          refine ⟨hI.pendN, by simp, ?_⟩
          intro a ha hb
          simp only [List.mem_singleton] at hb
          have hlt := (List.getElem?_eq_some.1 (hI.pendU a ha)).1
          rw [hb] at hlt
          omega
        · have hft : List.filterMap Task.pid [pushTask s p.prog] = [] := by
            simp [pushTask, hcs]
          rw [hft, List.append_nil]
          exact hI.pendN
      · intro q hq
        rw [pendingPids, hpt, List.filterMap_append] at hq
        by_cases hcs : classify p.prog = .qSync
        · have hft : List.filterMap Task.pid [pushTask s p.prog] =
              [s.promises.length] := by simp [pushTask, hcs]
          rw [hft] at hq
          rw [if_pos hcs]
          rcases List.mem_append.1 hq with h1 | h2
          · exact getElem?_append_pres (hI.pendU q h1)
          · simp only [List.mem_singleton] at h2
            subst h2
            exact List.getElem?_concat_length _ _
        · have hft : List.filterMap Task.pid [pushTask s p.prog] = [] := by
            simp [pushTask, hcs]
          rw [hft, List.append_nil] at hq
          rw [if_neg hcs]
          exact hI.pendU q hq
      · exact hI.execC
      · exact hI.noExecPre
      · intro j pp hpp
        by_cases hj : j = i
        · subst hj
          rw [getElem?_set_self_of hp] at hpp
          cases hpp
          have hpo := hI.prodI j p hp
          rw [prodOk, hpc] at hpo
          refine ⟨hpo, fun hcs =>
            ⟨rfl, s.promises.length, by simp [pushTask, hcs], Or.inr ?_⟩⟩
          rw [hpt]
          exact List.mem_append_right _ (by simp)
        · rw [List.getElem?_set_ne (fun hh2 => hj hh2.symm)] at hpp
          refine prodOk_of (hI.prodI j pp hpp) (fun e he => he) ?_ ?_ (fun x => x)
          · intro q v hv
            by_cases hcs : classify p.prog = .qSync
            · simp only [hcs, if_pos]
              exact getElem?_append_pres hv
            · simpa [hcs] using hv
          · intro t2 ht2
            refine Or.inl ?_
            rw [hpt]
            exact List.mem_append_left _ ht2
      · intro hj; exact hI.djoin hj
  | pReleaseQ s i p t hp hpc =>
      have hma : s.threadMutex = some (.prod i) :=
        (hI.lockP i).mpr ⟨p, hp, by simp [hpc, pHolds]⟩
      refine ⟨?_, ?_, ?_, ?_, ?_, ?_, ?_, ?_, ?_, ?_, ?_, ?_, ?_, ?_⟩
      · exact hI.fifo
      · exact iff_of_false (by simp) (fun hb => absurd (hI.lockW.mpr hb) (by simp [hma]))
      · exact iff_of_false (by simp) (fun hb => absurd (hI.lockD.mpr hb) (by simp [hma]))
      · intro j
        refine iff_of_false (by simp) (fun hex => ?_)
        obtain ⟨pp, hpp, hh⟩ := hex
        by_cases hj : j = i
        · subst hj
          rw [getElem?_set_self_of hp] at hpp
          cases hpp
          by_cases hcs : classify p.prog = .qSync <;> simp [hcs, pHolds] at hh
        · rw [List.getElem?_set_ne (fun hh2 => hj hh2.symm)] at hpp
          refine holdsP_not hI j (fun hx => ?_) ⟨pp, hpp, hh⟩
          rw [hma] at hx
          simp only [Option.some.injEq, Tid.prod.injEq] at hx
          exact hj hx.symm
      · exact hI.initM
      · exact hI.flagW
      · exact hI.engSh
      · exact hI.runFl
      · exact hI.pendN
      · exact hI.pendU
      · exact hI.execC
      · exact hI.noExecPre
      · intro j pp hpp
        by_cases hj : j = i
        · subst hj
          rw [getElem?_set_self_of hp] at hpp
          cases hpp
          have hpo := hI.prodI j p hp
          rw [prodOk, hpc] at hpo
          by_cases hcs : classify p.prog = .qSync
          · simp only [hcs, if_pos]
            exact ⟨hcs, hpo.2 hcs⟩
          · simp only [hcs, if_neg, ite_false]
            exact trivial
        · rw [List.getElem?_set_ne (fun hh2 => hj hh2.symm)] at hpp
          exact prodOk_of (hI.prodI j pp hpp) (fun e he => he) (fun q v hv => hv)
            (fun t2 ht2 => Or.inl ht2) (fun x => x)
      · intro hj; exact hI.djoin hj
  | pGetFuture s i p t q v hp hpc hq hv =>
      refine ⟨?_, ?_, ?_, ?_, ?_, ?_, ?_, ?_, ?_, ?_, ?_, ?_, ?_, ?_⟩
      · exact hI.fifo
      · exact hI.lockW
      · exact hI.lockD
      · intro j
        by_cases hj : j = i
        · subst hj
          refine iff_of_false (fun hx => ?_) (fun hex => ?_)
          · obtain ⟨pp, hpp, hh⟩ := (hI.lockP j).mp hx
            rw [hp] at hpp
            cases hpp
            simp [hpc, pHolds] at hh
          · obtain ⟨pp, hpp, hh⟩ := hex
            rw [getElem?_set_self_of hp] at hpp
            cases hpp
            simp [pHolds] at hh
        · rw [List.getElem?_set_ne (fun hh2 => hj hh2.symm)]
          exact hI.lockP j
      · exact hI.initM
      · exact hI.flagW
      · exact hI.engSh
      · exact hI.runFl
      · exact hI.pendN
      · exact hI.pendU
      · exact hI.execC
      · exact hI.noExecPre
      · intro j pp hpp
        by_cases hj : j = i
        · subst hj
          rw [getElem?_set_self_of hp] at hpp
          cases hpp
          have hpo := hI.prodI j p hp
          rw [prodOk, hpc] at hpo
          obtain ⟨hcsy, hop, q0, hq0, hdisj⟩ := hpo
          rw [hq] at hq0
          cases hq0
          rcases hdisj with ⟨entry, hmem, htask, hval⟩ | hpend2
          · rw [hval] at hv
            simp only [Option.some.injEq] at hv
            exact ⟨hop, q, hq, by rw [hval, hv], entry, hmem, htask, hv⟩
          · exfalso
            have hqmem : q ∈ pendingPids s :=
              List.mem_filterMap.2 ⟨t, hpend2, hq⟩
            have := hI.pendU q hqmem
            rw [hv] at this
            exact absurd this (by simp)
        · rw [List.getElem?_set_ne (fun hh2 => hj hh2.symm)] at hpp
          exact prodOk_of (hI.prodI j pp hpp) (fun e he => he) (fun q2 v2 hv2 => hv2)
            (fun t2 ht2 => Or.inl ht2) (fun x => x)
      · intro hj; exact hI.djoin hj
  | pWaitInit s i p hp hpc hc hm hi =>
      refine ⟨?_, ?_, ?_, ?_, ?_, ?_, ?_, ?_, ?_, ?_, ?_, ?_, ?_, ?_⟩
      · exact hI.fifo
      · exact hI.lockW
      · exact hI.lockD
      · intro j
        by_cases hj : j = i
        · subst hj
          refine iff_of_false (fun hx => ?_) (fun hex => ?_)
          · obtain ⟨pp, hpp, hh⟩ := (hI.lockP j).mp hx
            rw [hp] at hpp
            cases hpp
            simp [hpc, pHolds] at hh
          · obtain ⟨pp, hpp, hh⟩ := hex
            rw [getElem?_set_self_of hp] at hpp
            cases hpp
            simp [pHolds] at hh
        · rw [List.getElem?_set_ne (fun hh2 => hj hh2.symm)]
          exact hI.lockP j
      · exact hI.initM
      · exact hI.flagW
      · exact hI.engSh
      · exact hI.runFl
      · exact hI.pendN
      · exact hI.pendU
      · exact hI.execC
      · exact hI.noExecPre
      · intro j pp hpp
        by_cases hj : j = i
        · subst hj
          rw [getElem?_set_self_of hp] at hpp
          cases hpp
          exact hi
        · rw [List.getElem?_set_ne (fun hh2 => hj hh2.symm)] at hpp
          exact prodOk_of (hI.prodI j pp hpp) (fun e he => he) (fun q v hv => hv)
            (fun t2 ht2 => Or.inl ht2) (fun x => x)
      · intro hj; exact hI.djoin hj
  | pRead s i p e hp hpc hc he =>
      refine ⟨?_, ?_, ?_, ?_, ?_, ?_, ?_, ?_, ?_, ?_, ?_, ?_, ?_, ?_⟩
      · exact hI.fifo
      · exact hI.lockW
      · exact hI.lockD
      · intro j
        by_cases hj : j = i
        · subst hj
          refine iff_of_false (fun hx => ?_) (fun hex => ?_)
          · obtain ⟨pp, hpp, hh⟩ := (hI.lockP j).mp hx
            rw [hp] at hpp
            cases hpp
            simp [hpc, pHolds] at hh
          · obtain ⟨pp, hpp, hh⟩ := hex
            rw [getElem?_set_self_of hp] at hpp
            cases hpp
            simp [pHolds] at hh
        · rw [List.getElem?_set_ne (fun hh2 => hj hh2.symm)]
          exact hI.lockP j
      · exact hI.initM
      · exact hI.flagW
      · exact hI.engSh
      · exact hI.runFl
      · exact hI.pendN
      · exact hI.pendU
      · exact hI.execC
      · exact hI.noExecPre
      · intro j pp hpp
        by_cases hj : j = i
        · subst hj
          rw [getElem?_set_self_of hp] at hpp
          cases hpp
          exact trivial
        · rw [List.getElem?_set_ne (fun hh2 => hj hh2.symm)] at hpp
          exact prodOk_of (hI.prodI j pp hpp) (fun e2 he2 => he2) (fun q v hv => hv)
            (fun t2 ht2 => Or.inl ht2) (fun x => x)
      · intro hj; exact hI.djoin hj
  | pLockRead s i p hp hpc hc hm =>
      refine ⟨?_, ?_, ?_, ?_, ?_, ?_, ?_, ?_, ?_, ?_, ?_, ?_, ?_, ?_⟩
      · exact hI.fifo
      · exact iff_of_false (by simp) (fun hb => absurd (hI.lockW.mpr hb) (by simp [hm]))
      · exact iff_of_false (by simp) (fun hb => absurd (hI.lockD.mpr hb) (by simp [hm]))
      · intro j
        by_cases hj : j = i
        · subst hj
          exact iff_of_true rfl
            ⟨{ p with pc := .readLocked }, getElem?_set_self_of hp, by simp [pHolds]⟩
        · refine iff_of_false (fun hx => ?_) (fun hex => ?_)
          · simp only [Option.some.injEq, Tid.prod.injEq] at hx
            exact hj hx.symm
          · obtain ⟨pp, hpp, hh⟩ := hex
            rw [List.getElem?_set_ne (fun hh2 => hj hh2.symm)] at hpp
            exact holdsP_not hI j (by simp [hm]) ⟨pp, hpp, hh⟩
      · exact hI.initM
      · exact hI.flagW
      · exact hI.engSh
      · exact hI.runFl
      · exact hI.pendN
      · exact hI.pendU
      · exact hI.execC
      · exact hI.noExecPre
      · intro j pp hpp
        by_cases hj : j = i
        · subst hj
          rw [getElem?_set_self_of hp] at hpp
          cases hpp
          have hpo := hI.prodI j p hp
          rw [prodOk, hpc] at hpo
          exact hpo
        · rw [List.getElem?_set_ne (fun hh2 => hj hh2.symm)] at hpp
          exact prodOk_of (hI.prodI j pp hpp) (fun e he => he) (fun q v hv => hv)
            (fun t2 ht2 => Or.inl ht2) (fun x => x)
      · intro hj; exact hI.djoin hj
  | pReadProt s i p e hp hpc he =>
      have hma : s.threadMutex = some (.prod i) :=
        (hI.lockP i).mpr ⟨p, hp, by simp [hpc, pHolds]⟩
      refine ⟨?_, ?_, ?_, ?_, ?_, ?_, ?_, ?_, ?_, ?_, ?_, ?_, ?_, ?_⟩
      · exact hI.fifo
      · exact iff_of_false (by simp) (fun hb => absurd (hI.lockW.mpr hb) (by simp [hma]))
      · exact iff_of_false (by simp) (fun hb => absurd (hI.lockD.mpr hb) (by simp [hma]))
      · intro j
        refine iff_of_false (by simp) (fun hex => ?_)
        obtain ⟨pp, hpp, hh⟩ := hex
        by_cases hj : j = i
        · subst hj
          rw [getElem?_set_self_of hp] at hpp
          cases hpp
          simp [pHolds] at hh
        · rw [List.getElem?_set_ne (fun hh2 => hj hh2.symm)] at hpp
          refine holdsP_not hI j (fun hx => ?_) ⟨pp, hpp, hh⟩
          rw [hma] at hx
          simp only [Option.some.injEq, Tid.prod.injEq] at hx
          exact hj hx.symm
      · exact hI.initM
      · exact hI.flagW
      · exact hI.engSh
      · exact hI.runFl
      · exact hI.pendN
      · exact hI.pendU
      · exact hI.execC
      · exact hI.noExecPre
      · intro j pp hpp
        by_cases hj : j = i
        · subst hj
          rw [getElem?_set_self_of hp] at hpp
          cases hpp
          exact trivial
        · rw [List.getElem?_set_ne (fun hh2 => hj hh2.symm)] at hpp
          exact prodOk_of (hI.prodI j pp hpp) (fun e2 he2 => he2) (fun q v hv => hv)
            (fun t2 ht2 => Or.inl ht2) (fun x => x)
      · intro hj; exact hI.djoin hj

/-- Every state reachable from an initial state satisfies the invariant. -/
theorem reach_inv {eng0 : RenderEngine} {ops : List PubOp} {s : SysState}
    (h : Reach (initState eng0 ops) s) : SysInv s := by
  induction h with
  | refl => exact init_inv eng0 ops
  | tail l _ hst ih => exact step_inv hst ih

/-- The mid-execution state is reachable. -/
theorem reach_sMid : Reach cfg0 sMid :=
  runMoves_reach movesMid rfl

/-- The final state is reachable. -/
theorem reach_sFin : Reach cfg0 sFin :=
  runMoves_reach movesFin rfl

/-- C1: Serialized FIFO execution.  In every reachable state the tasks
executed so far (in execution order), followed by the in-flight task and
then the queued tasks, are exactly the pushed tasks in the global order
their enqueues completed, so the worker runs tasks in exactly enqueue
order with no reordering across producers and none between synchronous
and asynchronous calls; at most one task is in flight at any time, and
only a worker step can execute a task (extend the execution log). -/
theorem C1_fifo_serialized (eng0 : RenderEngine) (ops : List PubOp)
    (s : SysState) (h : Reach (initState eng0 ops) s) : C1concl s := by
  refine ⟨?_, ?_, ?_⟩
  · have hf := (reach_inv h).fifo
    rw [hf]
    simp [pendingTasks, List.append_assoc]
  · cases hw : s.wpc <;> simp [wInflight]
  · intro l s' hst hne
    cases hst <;> first | rfl | exact absurd rfl hne

/-- C1 witness: the property instantiated at the final state of the
concrete execution. -/
theorem C1_fifo_serialized_witness : C1concl sFin :=
  C1_fifo_serialized engW opsMain sFin reach_sFin

/-- C2: Synchronous blocking correctness.  Whenever a producer has
returned from a blocking call with value v, its task was pushed with a
promise slot, that slot has been satisfied with exactly v, and the
execution log contains the execution of exactly that task delivering v:
the call returned only after the worker fully executed its task, and the
returned value is the value delivered through the channel. -/
theorem C2_sync_blocking (eng0 : RenderEngine) (ops : List PubOp)
    (s : SysState) (h : Reach (initState eng0 ops) s)
    (i : Nat) (p : ProdState) (t : Task) (v : Val)
    (hp : s.prods[i]? = some p) (hpc : p.pc = .doneSync t v) :
    C2concl s p t v := by
  have hpo := (reach_inv h).prodI i p hp
  rw [prodOk, hpc] at hpo
  exact hpo

/-- C2 witness: the blocking genTextures call of the concrete execution
returned exactly the value its task delivered. -/
theorem C2_sync_blocking_witness :
    C2concl sFin
      ⟨.genTextures 3, .doneSync ⟨.genTextures 3, some 0⟩ .unit⟩
      ⟨.genTextures 3, some 0⟩ .unit :=
  C2_sync_blocking engW opsMain sFin reach_sFin 0 _ _ _ (by decide) rfl

/-- C3: Initialization barrier.  The initialized flag is monotone (never
cleared); the only step that sets it is the worker setting it while
holding the separate initialization mutex, leaving the queue mutex and
the queue untouched; a direct-read producer passes its initialization
wait only when the flag is already set (and the wait touches neither the
queue mutex, the queue, nor the promises); and once the flag is set and
the initialization mutex is free, the wait step of every waiting caller
is enabled, so all waiters are released and later calls pass
immediately.  Monotonicity makes the set step happen exactly once. -/
theorem C3_init_barrier (eng0 : RenderEngine) (ops : List PubOp)
    (s : SysState) (h : Reach (initState eng0 ops) s) : C3concl s := by
  refine ⟨?_, ?_, ?_, ?_⟩
  · intro l s' hst hin
    cases hst <;> first | exact hin | rfl
  · intro l s' hst h0 h1
    cases hst
    case wSetFlag hw =>
        refine ⟨rfl, hw, ?_, rfl, rfl⟩
        have hm := (reach_inv h).initM
        rw [hw] at hm
        exact hm
    all_goals
      have h1x : s.isInitialized = true := h1
      rw [h0] at h1x
      exact absurd h1x (by simp)
  · intro i p p' s' hst hp hpc hc hp' hne
    cases hst
    case pWaitInit p0 hpc0 hc0 hm0 hi0 hp0 => exact ⟨hi0, rfl, rfl, rfl⟩
    case pLockQ p0 hpc0 hc0 hm0 hp0 =>
        rw [hp] at hp0
        injection hp0 with he
        subst he
        rcases hc with h1 | h1 <;> rcases hc0 with h2 | h2 <;> rw [h1] at h2 <;>
          exact absurd h2 (by decide)
    case pPush p0 hpc0 hp0 =>
        rw [hp] at hp0
        injection hp0 with he
        subst he
        rw [hpc] at hpc0
        exact absurd hpc0 (by decide)
    case pReleaseQ p0 t0 hpc0 hp0 =>
        rw [hp] at hp0
        injection hp0 with he
        subst he
        rw [hpc] at hpc0
        simp at hpc0
    case pGetFuture p0 t0 q0 v0 hpc0 hq0 hv0 hp0 =>
        rw [hp] at hp0
        injection hp0 with he
        subst he
        rw [hpc] at hpc0
        simp at hpc0
    case pRead p0 e0 hpc0 hc0 he0 hp0 =>
        rw [hp] at hp0
        injection hp0 with he
        subst he
        rw [hpc] at hpc0
        exact absurd hpc0 (by decide)
    case pLockRead p0 hpc0 hc0 hm0 hp0 =>
        rw [hp] at hp0
        injection hp0 with he
        subst he
        rw [hpc] at hpc0
        exact absurd hpc0 (by decide)
    case pReadProt p0 e0 hpc0 he0 hp0 =>
        rw [hp] at hp0
        injection hp0 with he
        subst he
        rw [hpc] at hpc0
        exact absurd hpc0 (by decide)
  · intro i p hp hpc hc hm hi
    exact Step.pWaitInit s i p hp hpc hc hm hi

/-- C3 witness: the property instantiated at the final state of the
concrete execution. -/
theorem C3_init_barrier_witness : C3concl sFin :=
  C3_init_barrier engW opsMain sFin reach_sFin

/-- C4: Shutdown sequence.  The only step that clears the running flag is
the destructor doing so while holding the queue mutex; the destructor
program points advance strictly in the order lock, clear, signal, release,
join; the join completes only from the released point and only once the
worker has exited; and once joined, the worker has exited and the engine
has already been destroyed. -/
theorem C4_shutdown_sequence (eng0 : RenderEngine) (ops : List PubOp)
    (s : SysState) (h : Reach (initState eng0 ops) s) : C4concl s := by
  refine ⟨?_, ?_, ?_, ?_⟩
  · intro l s' hst h0 h1
    cases hst
    case dClear hd =>
        exact ⟨rfl, hd, (reach_inv h).lockD.mpr (by simp [hd, dHolds]), rfl⟩
    all_goals
      have h1x : s.running = false := h1
      rw [h0] at h1x
      exact absurd h1x (by simp)
  · intro l s' hst
    cases hst
    case dLock hd hm => exact Or.inr (by simp [hd, dNext])
    case dClear hd => exact Or.inr (by simp [hd, dNext])
    case dNotify hd => exact Or.inr (by simp [hd, dNext])
    case dRelease hd => exact Or.inr (by simp [hd, dNext])
    case dJoin hd hw => exact Or.inr (by simp [hd, dNext])
    all_goals exact Or.inl rfl
  · intro l s' hst h0 h1
    cases hst
    case dJoin hd hw => exact ⟨rfl, hd, hw⟩
    case dLock hd hm => exact absurd h1 (by simp)
    case dClear hd => exact absurd h1 (by simp)
    case dNotify hd => exact absurd h1 (by simp)
    case dRelease hd => exact absurd h1 (by simp)
    all_goals exact absurd h1 h0
  · intro hj
    refine ⟨(reach_inv h).djoin hj, ?_⟩
    have he := (reach_inv h).engSh
    rw [(reach_inv h).djoin hj] at he
    exact he

/-- C4 witness: the property instantiated at the final state of the
concrete execution, where the destructor has joined. -/
theorem C4_shutdown_sequence_witness : C4concl sFin :=
  C4_shutdown_sequence engW opsMain sFin reach_sFin

/-- C5: Thread-confined resource lifetime.  Only worker steps ever change
the engine; the transition from absent to present is exactly the factory
step at the start of the worker (before the loop); and the transition
from present to absent is exactly the reset step right after the loop
exits (with the running flag already false), before the worker thread
function returns. -/
theorem C5_thread_confined (eng0 : RenderEngine) (ops : List PubOp)
    (s : SysState) (h : Reach (initState eng0 ops) s) : C5concl s := by
  refine ⟨?_, ?_, ?_⟩
  · intro l s' hst hne
    cases hst <;> first | rfl | exact absurd rfl hne
  · intro l s' hst h0 h1
    cases hst
    case wFactory hw => exact ⟨hw, rfl, rfl⟩
    case wExecFinish t e hw he =>
        rw [h0] at he
        exact absurd he (by simp)
    case wReset hw => exact absurd rfl h1
    all_goals exact absurd h0 h1
  · intro l s' hst h0 h1
    cases hst
    case wReset hw =>
        exact ⟨hw, rfl, (reach_inv h).runFl (by simp [hw, wLate]), rfl⟩
    case wFactory hw => exact absurd h1 (by simp)
    case wExecFinish t e hw he => exact absurd h1 (by simp)
    all_goals exact absurd h1 h0

/-- C5 witness: the property instantiated at the final state of the
concrete execution, in which the engine has been destroyed. -/
theorem C5_thread_confined_witness : C5concl sFin :=
  C5_thread_confined engW opsMain sFin reach_sFin

/-- C6 counterexample: the claim says a producer push is never delayed
for the duration of a task execution.  In the concrete execution, sMid is
a reachable state in which the worker is mid-execution of a task while
holding the queue mutex, and the producer thread 1 (about to enqueue
primeCache, at program counter start) has no enabled step at all: its
push is delayed until the execution finishes and the lock is released. -/
theorem C6_push_not_delayed_counterexample :
    Reach (initState engW opsMain) sMid ∧
    sMid.wpc = .running ⟨.genTextures 3, some 0⟩ ∧
    sMid.threadMutex = some .worker ∧
    sMid.prods[1]? = some ⟨.primeCache, .start⟩ ∧
    classify PubOp.primeCache = .qAsync ∧
    ∀ s' : SysState, ¬ Step (.prod 1) sMid s' := by
  have hpm : sMid.prods[1]? = some ⟨.primeCache, .start⟩ := by decide
  refine ⟨reach_sMid, by decide, by decide, hpm, rfl, ?_⟩
  intro s' hst
  cases hst
  case pLockQ p0 hpc0 hc0 hm0 hp0 => exact absurd hm0 (by decide)
  case pPush p0 hpc0 hp0 =>
      rw [hpm] at hp0
      injection hp0 with he
      rw [← he] at hpc0
      simp at hpc0
  case pReleaseQ p0 t0 hpc0 hp0 =>
      rw [hpm] at hp0
      injection hp0 with he
      rw [← he] at hpc0
      simp at hpc0
  case pGetFuture p0 t0 q0 v0 hpc0 hq0 hv0 hp0 =>
      rw [hpm] at hp0
      injection hp0 with he
      rw [← he] at hpc0
      simp at hpc0
  case pWaitInit p0 hpc0 hc0 hm0 hi0 hp0 =>
      rw [hpm] at hp0
      injection hp0 with he
      rw [← he] at hc0
      simp [classify] at hc0
  case pRead p0 e0 hpc0 hc0 he0 hp0 =>
      rw [hpm] at hp0
      injection hp0 with he
      rw [← he] at hpc0
      simp at hpc0
  case pLockRead p0 hpc0 hc0 hm0 hp0 =>
      rw [hpm] at hp0
      injection hp0 with he
      rw [← he] at hpc0
      simp at hpc0
  case pReadProt p0 e0 hpc0 he0 hp0 =>
      rw [hpm] at hp0
      injection hp0 with he
      rw [← he] at hpc0
      simp at hpc0

/-- C6 amended: the enqueue step waits only to acquire the queue mutex
(once the mutex is free, the acquisition step of a producer beginning a
queued call is enabled), and no thread is suspended at a blocking
primitive while holding the queue mutex: every holder is at an active
holding program point, and the suspended program points (worker waiting
on the condition, producer waiting on a future or at start, destructor
waiting in join) are non-holding.  However, the worker holds the queue
mutex while executing a task, so a producer push can be delayed for the
duration of a task execution. -/
theorem C6_push_lock_amended (eng0 : RenderEngine) (ops : List PubOp)
    (s : SysState) (h : Reach (initState eng0 ops) s) : C6concl s := by
  have hI := reach_inv h
  refine ⟨hI.lockW.mp, hI.lockD.mp, fun i => (hI.lockP i).mp, rfl,
    fun _ => rfl, rfl, rfl, ?_, ?_⟩
  · intro t ht
    exact hI.lockW.mpr (by simp [ht, wHolds])
  · intro i p hp hpc hc hm
    exact Step.pLockQ s i p hp hpc hc hm

/-- C6 amended witness: the property instantiated at the mid-execution
state of the concrete execution. -/
theorem C6_push_lock_amended_witness : C6concl sMid :=
  C6_push_lock_amended engW opsMain sMid reach_sMid

/-- C7: Error passthrough without poisoning.  Every execution entry
delivers exactly the value the engine operation produced (for drawLayers,
exactly the engine status, negative or not, unchanged); a producer that
returned from a blocking drawLayers got exactly that status; and the
execution step leaves the running flag, the queue and the push log
untouched and returns the worker to its loop, whatever the result was, so
subsequent tasks execute normally. -/
theorem C7_error_passthrough (eng0 : RenderEngine) (ops : List PubOp)
    (s : SysState) (h : Reach (initState eng0 ops) s) : C7concl s := by
  refine ⟨(reach_inv h).execC, ?_, ?_⟩
  · intro i p t v d hp hprog hpc
    have hpo := (reach_inv h).prodI i p hp
    rw [prodOk, hpc] at hpo
    obtain ⟨hop, q, hq, hv, entry, hmem, htask, hval⟩ := hpo
    have hv2 := ((reach_inv h).execC entry hmem).2
    rw [htask, hop, hprog] at hv2
    refine ⟨entry, hmem, htask, hval.symm, ?_⟩
    simpa [runOp] using hv2
  · intro s' t hst hwr
    cases hst
    case wExecFinish t0 e0 hw he => exact ⟨rfl, rfl, rfl, rfl⟩
    all_goals simp_all

/-- C7 witness: the property instantiated at the final state of the
concrete execution, in which a failing drawLayers (status -22) was
followed by a succeeding one (status 0). -/
theorem C7_error_passthrough_witness : C7concl sFin :=
  C7_error_passthrough engW opsMain sFin reach_sFin

/-- C8: Direct-read accessors.  The five read-only accessors are
classified as direct reads (isProtected as a direct read under the queue
mutex); no step of a producer running a direct-read operation enqueues
anything (queue, push log and promises are untouched); the unlocked read
step happens only after the initialization flag was observed set, reads
the engine directly on the caller thread, and returns exactly the value
read from the engine; and a producer at the locked-read point of
isProtected holds the queue mutex (excluding the queued
useProtectedContext mutation) with initialization complete. -/
theorem C8_direct_reads (eng0 : RenderEngine) (ops : List PubOp)
    (s : SysState) (h : Reach (initState eng0 ops) s) : C8concl s := by
  refine ⟨⟨rfl, rfl, rfl, rfl, rfl⟩, ?_, ?_, ?_⟩
  · intro i p s' hst hp hc
    cases hst
    case pLockQ p0 hpc0 hc0 hm0 hp0 =>
        rw [hp] at hp0
        injection hp0 with he
        subst he
        rcases hc with h1 | h1 <;> rcases hc0 with h2 | h2 <;> rw [h1] at h2 <;>
          exact absurd h2 (by decide)
    case pPush p0 hpc0 hp0 =>
        rw [hp] at hp0
        injection hp0 with he
        subst he
        have hpo := (reach_inv h).prodI i p hp
        rw [prodOk, hpc0] at hpo
        rcases hc with h1 | h1 <;> rcases hpo with h2 | h2 <;> rw [h1] at h2 <;>
          exact absurd h2 (by decide)
    case pReleaseQ p0 t0 hpc0 hp0 =>
        rw [hp] at hp0
        injection hp0 with he
        subst he
        have hpo := (reach_inv h).prodI i p hp
        rw [prodOk, hpc0] at hpo
        rcases hc with h1 | h1 <;> rcases hpo.1 with h2 | h2 <;>
          rw [h1] at h2 <;> exact absurd h2 (by decide)
    case pGetFuture p0 t0 q0 v0 hpc0 hq0 hv0 hp0 =>
        rw [hp] at hp0
        injection hp0 with he
        subst he
        have hpo := (reach_inv h).prodI i p hp
        rw [prodOk, hpc0] at hpo
        rcases hc with h1 | h1 <;> rw [h1] at hpo <;>
          exact absurd hpo.1 (by decide)
    case pWaitInit p0 hpc0 hc0 hm0 hi0 hp0 => exact ⟨rfl, rfl, rfl⟩
    case pRead p0 e0 hpc0 hc0 he0 hp0 => exact ⟨rfl, rfl, rfl⟩
    case pLockRead p0 hpc0 hc0 hm0 hp0 => exact ⟨rfl, rfl, rfl⟩
    case pReadProt p0 e0 hpc0 he0 hp0 => exact ⟨rfl, rfl, rfl⟩
  · intro i p s' hst hp hpc hcr
    cases hst
    case pRead p0 e0 hpc0 hc0 he0 hp0 =>
        rw [hp] at hp0
        injection hp0 with he
        subst he
        have hpo := (reach_inv h).prodI i p hp
        rw [prodOk, hpc] at hpo
        exact ⟨hpo, e0, he0, getElem?_set_self_of hp⟩
    case pLockRead p0 hpc0 hc0 hm0 hp0 =>
        rw [hp] at hp0
        injection hp0 with he
        subst he
        rw [hcr] at hc0
        exact absurd hc0 (by decide)
    case pLockQ p0 hpc0 hc0 hm0 hp0 =>
        rw [hp] at hp0
        injection hp0 with he
        subst he
        rw [hpc] at hpc0
        exact absurd hpc0 (by decide)
    case pPush p0 hpc0 hp0 =>
        rw [hp] at hp0
        injection hp0 with he
        subst he
        rw [hpc] at hpc0
        exact absurd hpc0 (by decide)
    case pReleaseQ p0 t0 hpc0 hp0 =>
        rw [hp] at hp0
        injection hp0 with he
        subst he
        rw [hpc] at hpc0
        simp at hpc0
    case pGetFuture p0 t0 q0 v0 hpc0 hq0 hv0 hp0 =>
        rw [hp] at hp0
        injection hp0 with he
        subst he
        rw [hpc] at hpc0
        simp at hpc0
    case pWaitInit p0 hpc0 hc0 hm0 hi0 hp0 =>
        rw [hp] at hp0
        injection hp0 with he
        subst he
        rw [hpc] at hpc0
        exact absurd hpc0 (by decide)
    case pReadProt p0 e0 hpc0 he0 hp0 =>
        rw [hp] at hp0
        injection hp0 with he
        subst he
        rw [hpc] at hpc0
        exact absurd hpc0 (by decide)
  · intro i p hp hpc
    have hpo := (reach_inv h).prodI i p hp
    rw [prodOk, hpc] at hpo
    exact ⟨(reach_inv h).lockP i |>.mpr ⟨p, hp, by simp [hpc, pHolds]⟩, hpo⟩

/-- C8 witness: the property instantiated at the final state of the
concrete execution, in which the isProtected direct read completed. -/
theorem C8_direct_reads_witness : C8concl sFin :=
  C8_direct_reads engW opsMain sFin reach_sFin

/-- C9: No task runs before initialization.  Whenever the worker is
executing a task, the initialized flag is already set and the engine
exists; while the flag is clear no task has ever executed; and the FIFO
equation shows that tasks enqueued before initialization are retained in
the queue, in enqueue order, until executed. -/
theorem C9_no_task_before_init (eng0 : RenderEngine) (ops : List PubOp)
    (s : SysState) (h : Reach (initState eng0 ops) s) : C9concl s := by
  refine ⟨?_, (reach_inv h).noExecPre, ?_⟩
  · intro t ht
    refine ⟨(reach_inv h).flagW (by simp [ht, wEarly]), ?_⟩
    have he := (reach_inv h).engSh
    rw [ht] at he
    exact Option.isSome_iff_exists.mp he
  · have hf := (reach_inv h).fifo
    rw [hf]
    simp [pendingTasks, List.append_assoc]

/-- C9 witness: the property instantiated at the mid-execution state of
the concrete execution, where the worker is running a task. -/
theorem C9_no_task_before_init_witness : C9concl sMid :=
  C9_no_task_before_init engW opsMain sMid reach_sMid

/-- C10: Pending tasks are dropped at shutdown.  A worker at the loop
check with the running flag cleared exits the loop without touching the
queue, the execution log or the promises; a worker that has exited can
take no further step, so tasks still queued are never dequeued or
executed; every still queued task with a promise slot has that slot still
unsatisfied; and a task already dequeued (in flight) can always be
completed, whatever the running flag. -/
theorem C10_pending_dropped (eng0 : RenderEngine) (ops : List PubOp)
    (s : SysState) (h : Reach (initState eng0 ops) s) : C10concl s := by
  refine ⟨?_, ?_, ?_, ?_⟩
  · intro s' hst h0 h1
    cases hst
    case wLoopExit hw hr => exact ⟨rfl, rfl, rfl, rfl⟩
    case wLoopEnter hw hr =>
        rw [h1] at hr
        exact absurd hr (by simp)
    all_goals simp_all
  · intro hd s' hst
    cases hst <;> simp_all
  · intro t ht q hq
    refine (reach_inv h).pendU q ?_
    exact List.mem_filterMap.2 ⟨t, List.mem_append_right _ ht, hq⟩
  · intro t e h1 h2
    exact Step.wExecFinish s t e h1 h2

/-- C10 witness: the property instantiated at the final state of the
concrete execution, where the worker has exited and a blocking
useProtectedContext task is still queued with an unsatisfied promise. -/
theorem C10_pending_dropped_witness : C10concl sFin :=
  C10_pending_dropped engW opsMain sFin reach_sFin

end RETh
